import Mathlib

/-
Verification development for the scene-object undo/redo command subsystem
(BansheeEngine editor, BsCmdRecordSO.h).  The repository ships only the
header of CmdRecordSO; the codec, topology-proxy and command bodies are
modelled from the design specification where noted.
-/

set_option maxHeartbeats 1000000

open List

/-- Scalar state of one scene object: its identity token, its transform
fields (position, rotation, scale, modelled as integer bit-pattern
stand-ins, since no arithmetic is ever performed on them by the command),
and the serialized data of its attached components. -/
structure SOData where
  id : Nat
  position : Int
  rotation : Int
  scale : Int
  components : List Nat
deriving DecidableEq, Repr

/-- A live scene-object subtree: the node state plus the ordered list
of child subtrees. -/
inductive SceneObject : Type where
  | mk (data : SOData) (children : List SceneObject)

/-- The node state at the root of a subtree. -/
def SceneObject.data : SceneObject → SOData
  | .mk d _ => d

/-- The ordered children of the root of a subtree. -/
def SceneObject.children : SceneObject → List SceneObject
  | .mk _ cs => cs

/-- The identity token of the root of a subtree. -/
def SceneObject.rootId (x : SceneObject) : Nat :=
  x.data.id

theorem SceneObject.eta (x : SceneObject) : SceneObject.mk x.data x.children = x := by
  cases x
  rfl

/-- A scene graph is the ordered list of top-level scene objects under
the implicit graph root. -/
abbrev SceneGraph := List SceneObject

/-- Encoding of one integer transform field into a natural token
(sign-folding, injective). -/
def encInt (i : Int) : Nat :=
  if 0 ≤ i then 2 * i.toNat else 2 * (-i).toNat - 1

/-- Decoding of one integer transform field. -/
def decInt (n : Nat) : Int :=
  if n % 2 = 0 then ((n / 2 : Nat) : Int) else -(((n + 1) / 2 : Nat) : Int)

theorem decInt_encInt (i : Int) : decInt (encInt i) = i := by
  unfold encInt decInt
  by_cases h : 0 ≤ i
  · simp only [if_pos h]
    omega
  · simp only [if_neg h]
    omega

mutual

/-- Modelled from the spec: SceneSnapshotCodec.encode (the serialization
collaborator invoked by CmdRecordSO::recordSO is not in the repository
sources).  Serializes the node state (identity, transform, component
data) and, when deep is true, every descendant in depth-first order, as
a count-prefixed token stream. -/
def encodeSO : SceneObject → Bool → List Nat
  | .mk d cs, deep =>
    d.id :: encInt d.position :: encInt d.rotation :: encInt d.scale ::
      d.components.length ::
        (d.components ++ (if deep then cs.length :: encodeList cs else 0 :: []))

/-- Depth-first encoding of a sibling list, each subtree encoded deeply. -/
def encodeList : List SceneObject → List Nat
  | [] => []
  | c :: cs => encodeSO c true ++ encodeList cs

end

mutual

/-- Modelled from the spec: SceneSnapshotCodec.decode, fuelled decoder of
one subtree.  Rejects truncated or malformed input by returning none
(the CorruptBlobError condition). -/
def decodeSO : Nat → List Nat → Option (SceneObject × List Nat)
  | 0, _ => none
  | fuel + 1, l =>
    match l with
    | i :: p :: r :: s :: ncomp :: rest =>
      if ncomp ≤ rest.length then
        match rest.drop ncomp with
        | nkids :: rest2 =>
          match decodeChildren fuel nkids rest2 with
          | some (kids, rest3) =>
            some (SceneObject.mk ⟨i, decInt p, decInt r, decInt s, rest.take ncomp⟩ kids, rest3)
          | none => none
        | [] => none
      else none
    | _ => none

/-- Fuelled decoder of a counted list of subtrees. -/
def decodeChildren : Nat → Nat → List Nat → Option (List SceneObject × List Nat)
  | _, 0, l => some ([], l)
  | 0, _ + 1, _ => none
  | fuel + 1, n + 1, l =>
    match decodeSO fuel l with
    | some (x, rest) =>
      match decodeChildren fuel n rest with
      | some (xs, rest2) => some (x :: xs, rest2)
      | none => none
    | none => none

end

/-- Modelled from the spec: SceneSnapshotCodec.decode over a whole blob;
the blob must be consumed exactly, otherwise the blob is corrupt. -/
def decodeBlob (blob : List Nat) : Option SceneObject :=
  match decodeSO blob.length blob with
  | some (x, []) => some x
  | _ => none

mutual

/-- Number of nodes plus child slots in a subtree (fuel measure). -/
def soWeight : SceneObject → Nat
  | .mk _ cs => 1 + listWeight cs

/-- Fuel measure of a sibling list. -/
def listWeight : List SceneObject → Nat
  | [] => 0
  | c :: cs => 1 + soWeight c + listWeight cs

end

/-- Simultaneous induction over subtrees and sibling lists. -/
theorem so_list_induct (P : SceneObject → Prop) (Q : List SceneObject → Prop)
    (hmk : ∀ d cs, Q cs → P (SceneObject.mk d cs))
    (hnil : Q [])
    (hcons : ∀ c cs, P c → Q cs → Q (c :: cs)) :
    (∀ x, P x) ∧ (∀ l, Q l) := by
  have key : ∀ n : Nat,
      (∀ x : SceneObject, sizeOf x ≤ n → P x) ∧
      (∀ l : List SceneObject, sizeOf l ≤ n → Q l) := by
    intro n
    induction n with
    | zero =>
      constructor
      · intro x hx
        cases x with
        | mk d cs => simp at hx
      · intro l hl
        cases l with
        | nil => simp at hl
        | cons c cs => simp at hl
    | succ n ih =>
      constructor
      · intro x hx
        cases x with
        | mk d cs =>
          apply hmk
          apply ih.2
          simp at hx
          omega
      · intro l hl
        cases l with
        | nil => exact hnil
        | cons c cs =>
          simp at hl
          exact hcons c cs (ih.1 c (by omega)) (ih.2 cs (by omega))
  exact ⟨fun x => (key (sizeOf x)).1 x le_rfl, fun l => (key (sizeOf l)).2 l le_rfl⟩

theorem weight_le_encode_length :
    (∀ x : SceneObject, soWeight x + 1 ≤ (encodeSO x true).length) ∧
    (∀ l : List SceneObject, listWeight l ≤ (encodeList l).length) := by
  refine so_list_induct _ _ ?_ ?_ ?_
  · intro d cs h
    simp [encodeSO, soWeight]
    omega
  · simp [encodeList, listWeight]
  · intro c cs hc hcs
    simp [encodeList, listWeight] at *
    omega

theorem decode_encode_aux : ∀ fuel : Nat,
    (∀ (x : SceneObject) (rest : List Nat), soWeight x ≤ fuel →
      decodeSO fuel (encodeSO x true ++ rest) = some (x, rest)) ∧
    (∀ (xs : List SceneObject) (rest : List Nat), listWeight xs ≤ fuel →
      decodeChildren fuel xs.length (encodeList xs ++ rest) = some (xs, rest)) := by
  intro fuel
  induction fuel with
  | zero =>
    constructor
    · intro x rest hw
      cases x with
      | mk d cs => simp [soWeight] at hw
    · intro xs rest hw
      cases xs with
      | nil => simp [encodeList, decodeChildren]
      | cons c cs => simp [listWeight] at hw
  | succ fuel ih =>
    constructor
    · intro x rest hw
      cases x with
      | mk d cs =>
        have hwcs : listWeight cs ≤ fuel := by
          simp [soWeight] at hw
          omega
        simp only [encodeSO, decodeSO, List.cons_append, List.append_assoc, if_true]
        rw [if_pos]
        · rw [List.drop_left, List.take_left]
          simp [ih.2 cs rest hwcs, decInt_encInt]
        · simp
    · intro xs rest hw
      cases xs with
      | nil => simp [encodeList, decodeChildren]
      | cons c cs =>
        have hwc : soWeight c ≤ fuel := by
          simp [listWeight] at hw
          omega
        have hwcs : listWeight cs ≤ fuel := by
          simp [listWeight] at hw
          omega
        simp only [encodeList, List.length_cons, decodeChildren, List.append_assoc,
          ih.1 c (encodeList cs ++ rest) hwc, ih.2 cs rest hwcs]

/-- Full-consumption round trip of the deep codec. -/
theorem decodeBlob_encodeSO (x : SceneObject) : decodeBlob (encodeSO x true) = some x := by
  unfold decodeBlob
  have hfuel : soWeight x ≤ (encodeSO x true).length := by
    have := weight_le_encode_length.1 x
    omega
  have h := (decode_encode_aux (encodeSO x true).length).1 x [] hfuel
  rw [List.append_nil] at h
  rw [h]

/-- A shallow encoding is the deep encoding of the childless root. -/
theorem encodeSO_shallow (x : SceneObject) :
    encodeSO x false = encodeSO (SceneObject.mk x.data []) true := by
  cases x with
  | mk d cs => simp [encodeSO, encodeList, SceneObject.data]

/-- Round trip of the shallow codec: only the node state survives. -/
theorem decodeBlob_encodeSO_shallow (x : SceneObject) :
    decodeBlob (encodeSO x false) = some (SceneObject.mk x.data []) := by
  rw [encodeSO_shallow, decodeBlob_encodeSO]

/-- The encoding of a subtree is never the empty blob. -/
theorem encodeSO_ne_nil (x : SceneObject) (rh : Bool) : encodeSO x rh ≠ [] := by
  cases x with
  | mk d cs => simp [encodeSO]

mutual

/-- Liveness-checked lookup of the node with a given identity token
inside one subtree, returning the whole subtree it roots. -/
def soFind : SceneObject → Nat → Option SceneObject
  | .mk d cs, i => if d.id = i then some (SceneObject.mk d cs) else listFind cs i

/-- Lookup of an identity token across a sibling list, in order. -/
def listFind : List SceneObject → Nat → Option SceneObject
  | [], _ => none
  | c :: cs, i =>
    match soFind c i with
    | some y => some y
    | none => listFind cs i

end

mutual

/-- All identity tokens of a subtree, root first, depth first. -/
def soIds : SceneObject → List Nat
  | .mk d cs => d.id :: listIds cs

/-- All identity tokens of a sibling list. -/
def listIds : List SceneObject → List Nat
  | [] => []
  | c :: cs => soIds c ++ listIds cs

end

mutual

/-- Destroying (detaching) the node with a given token inside a subtree:
every child subtree rooted at that token is dropped whole. -/
def soDestroy : SceneObject → Nat → SceneObject
  | .mk d cs, i => SceneObject.mk d (listDestroy cs i)

/-- Destroying a token across a sibling list. -/
def listDestroy : List SceneObject → Nat → List SceneObject
  | [], _ => []
  | c :: cs, i => if c.rootId = i then listDestroy cs i else soDestroy c i :: listDestroy cs i

end

/-- Insert a subtree at a given ordinal position of a sibling list
(clamped to the end when the ordinal exceeds the length). -/
def insAt : Nat → SceneObject → List SceneObject → List SceneObject
  | 0, x, l => x :: l
  | _ + 1, x, [] => [x]
  | n + 1, x, c :: cs => c :: insAt n x cs

mutual

/-- Attach a subtree as a child of the node with token p, at ordinal k. -/
def soAttach : SceneObject → Nat → Nat → SceneObject → SceneObject
  | .mk d cs, p, k, x =>
    if d.id = p then SceneObject.mk d (insAt k x cs) else SceneObject.mk d (listAttach cs p k x)

/-- Attach across a sibling list. -/
def listAttach : List SceneObject → Nat → Nat → SceneObject → List SceneObject
  | [], _, _, _ => []
  | c :: cs, p, k, x => soAttach c p k x :: listAttach cs p k x

end

mutual

/-- Ancestor token chain of a node inside a subtree, nearest first
(empty when the node is the subtree root, none when absent). -/
def soAncestors : SceneObject → Nat → Option (List Nat)
  | .mk d cs, i =>
    if d.id = i then some [] else (listAncestors cs i).map (fun l => l ++ [d.id])

/-- Ancestor chain search across a sibling list. -/
def listAncestors : List SceneObject → Nat → Option (List Nat)
  | [], _ => none
  | c :: cs, i =>
    match soAncestors c i with
    | some l => some l
    | none => listAncestors cs i

end

/-- Index of the sibling whose root carries the given token. -/
def idxOfRoot : List SceneObject → Nat → Option Nat
  | [], _ => none
  | c :: cs, i => if c.rootId = i then some 0 else (idxOfRoot cs i).map Nat.succ

mutual

/-- Sibling ordinal of the node with the given token inside a subtree. -/
def soOrdinal : SceneObject → Nat → Option Nat
  | .mk _ cs, i =>
    match idxOfRoot cs i with
    | some k => some k
    | none => listOrdinal cs i

/-- Deep ordinal search across a sibling list. -/
def listOrdinal : List SceneObject → Nat → Option Nat
  | [], _ => none
  | c :: cs, i =>
    match soOrdinal c i with
    | some k => some k
    | none => listOrdinal cs i

end

/-- Sibling ordinal of a node anywhere in the graph (top level included). -/
def graphOrdinal (g : SceneGraph) (i : Nat) : Option Nat :=
  match idxOfRoot g i with
  | some k => some k
  | none => listOrdinal g i

/-- Graph-level lookup. -/
def sgFind (g : SceneGraph) (i : Nat) : Option SceneObject := listFind g i

/-- Graph-level liveness check of an identity token. -/
def sgContains (g : SceneGraph) (i : Nat) : Bool := (listFind g i).isSome

/-- Graph-level destroy of the node owning a token (subtree and all). -/
def sgDestroy (g : SceneGraph) (i : Nat) : SceneGraph := listDestroy g i

/-- Graph-level attach of a detached subtree: under a parent token when
one is given, else at top level under the graph root. -/
def sgAttach (g : SceneGraph) : Option Nat → Nat → SceneObject → SceneGraph
  | none, k, x => insAt k x g
  | some p, k, x => listAttach g p k x

/-- All identity tokens of the graph. -/
def sgIds (g : SceneGraph) : List Nat := listIds g

/-- Transform fields of the node owning a token, when live. -/
def transformOf (g : SceneGraph) (i : Nat) : Option (Int × Int × Int) :=
  (sgFind g i).map (fun x => (x.data.position, x.data.rotation, x.data.scale))

/-- Root tokens of the top-level nodes. -/
def topRootIds (g : SceneGraph) : List Nat := g.map SceneObject.rootId

/-- Root tokens of the children of the node owning token p. -/
def childRootIds (g : SceneGraph) (p : Nat) : List Nat :=
  match sgFind g p with
  | some y => y.children.map SceneObject.rootId
  | none => []

/-- Modelled from the spec: CmdUtility::SceneObjProxy (BsCmdUtility is
not among the repository sources).  A codec-independent shadow of the
captured node position: its identity token, its ancestor token chain
nearest first, and its ordinal among its siblings. -/
structure SceneObjProxy where
  idToken : Nat
  ancestors : List Nat
  ordinal : Nat
deriving DecidableEq, Repr

/-- Modelled from the spec: TopologyProxy.capture - records the identity
token, the ancestor chain walked upward from the node, and the sibling
ordinal, from the live graph. -/
def SceneObjProxy.capture (g : SceneGraph) (i : Nat) : SceneObjProxy :=
  ⟨i, (listAncestors g i).getD [], (graphOrdinal g i).getD 0⟩

/-- Modelled from the spec: the recoverable DanglingParentError policy of
TopologyProxy.reattach - the first token of the recorded ancestor chain
that is still live in the graph, none meaning the graph root. -/
def nearestSurviving : List Nat → SceneGraph → Option Nat
  | [], _ => none
  | p :: ps, g => if sgContains g p then some p else nearestSurviving ps g

mutual

/-- External transform edit: overwrite the transform fields of the node
carrying the given token (the graph collaborator operation a caller of
execute performs after capture). -/
def soSetTransform : SceneObject → Nat → Int × Int × Int → SceneObject
  | .mk d cs, i, t =>
    SceneObject.mk
      (if d.id = i then { d with position := t.1, rotation := t.2.1, scale := t.2.2 } else d)
      (listSetTransform cs i t)

/-- External transform edit across a sibling list. -/
def listSetTransform : List SceneObject → Nat → Int × Int × Int → List SceneObject
  | [], _, _ => []
  | c :: cs, i, t => soSetTransform c i t :: listSetTransform cs i t

end

/-- Graph-level external transform edit. -/
def sgSetTransform (g : SceneGraph) (i : Nat) (t : Int × Int × Int) : SceneGraph :=
  listSetTransform g i t

theorem find_isSome_iff_mem :
    (∀ x : SceneObject, ∀ i, (soFind x i).isSome = true ↔ i ∈ soIds x) ∧
    (∀ l : List SceneObject, ∀ i, (listFind l i).isSome = true ↔ i ∈ listIds l) := by
  refine so_list_induct
    (fun x => ∀ i, (soFind x i).isSome = true ↔ i ∈ soIds x)
    (fun l => ∀ i, (listFind l i).isSome = true ↔ i ∈ listIds l) ?_ ?_ ?_
  · intro d cs h i
    by_cases hd : d.id = i
    · simp [soFind, soIds, hd]
    · simp [soFind, soIds, hd, h i]
      intro hcon
      exact absurd hcon.symm hd
  · intro i
    simp [listFind, listIds]
  · intro c cs hc hcs i
    cases hfind : soFind c i with
    | some y =>
      have : i ∈ soIds c := (hc i).mp (by simp [hfind])
      simp [listFind, listIds, hfind, this]
    | none =>
      have : ¬ i ∈ soIds c := by
        intro hmem
        have := (hc i).mpr hmem
        simp [hfind] at this
      simp [listFind, listIds, hfind, hcs i, this]

theorem find_rootId :
    (∀ x : SceneObject, ∀ i y, soFind x i = some y → y.rootId = i) ∧
    (∀ l : List SceneObject, ∀ i y, listFind l i = some y → y.rootId = i) := by
  refine so_list_induct
    (fun x => ∀ i y, soFind x i = some y → y.rootId = i)
    (fun l => ∀ i y, listFind l i = some y → y.rootId = i) ?_ ?_ ?_
  · intro d cs h i y hy
    by_cases hd : d.id = i
    · simp [soFind, hd] at hy
      subst hy
      simpa [SceneObject.rootId, SceneObject.data] using hd
    · simp [soFind, hd] at hy
      exact h i y hy
  · intro i y hy
    simp [listFind] at hy
  · intro c cs hc hcs i y hy
    simp only [listFind] at hy
    cases hfind : soFind c i with
    | some z =>
      rw [hfind] at hy
      cases hy
      exact hc i _ hfind
    | none =>
      rw [hfind] at hy
      exact hcs i y hy

theorem find_ids_sublist :
    (∀ x : SceneObject, ∀ i y, soFind x i = some y → List.Sublist (soIds y) (soIds x)) ∧
    (∀ l : List SceneObject, ∀ i y, listFind l i = some y → List.Sublist (soIds y) (listIds l)) := by
  refine so_list_induct
    (fun x => ∀ i y, soFind x i = some y → List.Sublist (soIds y) (soIds x))
    (fun l => ∀ i y, listFind l i = some y → List.Sublist (soIds y) (listIds l)) ?_ ?_ ?_
  · intro d cs h i y hy
    by_cases hd : d.id = i
    · simp [soFind, hd] at hy
      subst hy
      exact List.Sublist.refl _
    · simp [soFind, hd] at hy
      have := h i y hy
      simp only [soIds]
      exact this.trans (List.sublist_cons_of_sublist _ (List.Sublist.refl _))
  · intro i y hy
    simp [listFind] at hy
  · intro c cs hc hcs i y hy
    simp only [listFind] at hy
    cases hfind : soFind c i with
    | some z =>
      rw [hfind] at hy
      cases hy
      simp only [listIds]
      exact (hc i _ hfind).trans (List.sublist_append_left _ _)
    | none =>
      rw [hfind] at hy
      simp only [listIds]
      exact (hcs i y hy).trans (List.sublist_append_right _ _)

theorem destroy_noop :
    (∀ x : SceneObject, ∀ i, ¬ i ∈ soIds x → soDestroy x i = x) ∧
    (∀ l : List SceneObject, ∀ i, ¬ i ∈ listIds l → listDestroy l i = l) := by
  refine so_list_induct
    (fun x => ∀ i, ¬ i ∈ soIds x → soDestroy x i = x)
    (fun l => ∀ i, ¬ i ∈ listIds l → listDestroy l i = l) ?_ ?_ ?_
  · intro d cs h i hi
    simp [soIds] at hi
    simp [soDestroy, h i hi.2]
  · intro i hi
    simp [listDestroy]
  · intro c cs hc hcs i hi
    simp [listIds] at hi
    have hroot : c.rootId ≠ i := by
      intro hr
      apply hi.1
      cases c with
      | mk d cs2 =>
        simp [SceneObject.rootId, SceneObject.data] at hr
        simp [soIds, hr]
    simp [listDestroy, hroot, hc i hi.1, hcs i hi.2]

theorem attach_noop :
    (∀ x : SceneObject, ∀ p k y, ¬ p ∈ soIds x → soAttach x p k y = x) ∧
    (∀ l : List SceneObject, ∀ p k y, ¬ p ∈ listIds l → listAttach l p k y = l) := by
  refine so_list_induct
    (fun x => ∀ p k y, ¬ p ∈ soIds x → soAttach x p k y = x)
    (fun l => ∀ p k y, ¬ p ∈ listIds l → listAttach l p k y = l) ?_ ?_ ?_
  · intro d cs h p k y hp
    simp [soIds] at hp
    have hd : d.id ≠ p := fun he => hp.1 he.symm
    simp [soAttach, hd, h p k y hp.2]
  · intro p k y hp
    simp [listAttach]
  · intro c cs hc hcs p k y hp
    simp [listIds] at hp
    simp [listAttach, hc p k y hp.1, hcs p k y hp.2]

theorem destroy_not_mem :
    (∀ x : SceneObject, ∀ i, x.rootId ≠ i → ¬ i ∈ soIds (soDestroy x i)) ∧
    (∀ l : List SceneObject, ∀ i, ¬ i ∈ listIds (listDestroy l i)) := by
  refine so_list_induct
    (fun x => ∀ i, x.rootId ≠ i → ¬ i ∈ soIds (soDestroy x i))
    (fun l => ∀ i, ¬ i ∈ listIds (listDestroy l i)) ?_ ?_ ?_
  · intro d cs h i hroot
    simp [SceneObject.rootId, SceneObject.data] at hroot
    simp [soDestroy, soIds]
    constructor
    · intro he
      exact hroot he.symm
    · exact h i
  · intro i
    simp [listDestroy, listIds]
  · intro c cs hc hcs i
    by_cases hr : c.rootId = i
    · simp [listDestroy, hr, hcs i]
    · simp [listDestroy, hr, listIds]
      exact ⟨hc i hr, hcs i⟩

theorem destroy_ids_sublist :
    (∀ x : SceneObject, ∀ i, List.Sublist (soIds (soDestroy x i)) (soIds x)) ∧
    (∀ l : List SceneObject, ∀ i, List.Sublist (listIds (listDestroy l i)) (listIds l)) := by
  refine so_list_induct
    (fun x => ∀ i, List.Sublist (soIds (soDestroy x i)) (soIds x))
    (fun l => ∀ i, List.Sublist (listIds (listDestroy l i)) (listIds l)) ?_ ?_ ?_
  · intro d cs h i
    simp only [soDestroy, soIds]
    exact (h i).cons₂ _
  · intro i
    simp [listDestroy]
  · intro c cs hc hcs i
    by_cases hr : c.rootId = i
    · simp only [listDestroy, if_pos hr, listIds]
      exact (hcs i).trans (List.sublist_append_right _ _)
    · simp only [listDestroy, if_neg hr, listIds]
      exact List.Sublist.append (hc i) (hcs i)

theorem root_mem_soIds (x : SceneObject) : x.rootId ∈ soIds x := by
  cases x with
  | mk d cs => simp [soIds, SceneObject.rootId, SceneObject.data]

theorem soFind_self (x : SceneObject) : soFind x x.rootId = some x := by
  cases x with
  | mk d cs => simp [soFind, SceneObject.rootId, SceneObject.data]

theorem mem_of_find_some {l : List SceneObject} {i : Nat} {y : SceneObject}
    (h : listFind l i = some y) : i ∈ listIds l :=
  (find_isSome_iff_mem.2 l i).mp (by simp [h])

theorem find_none_of_not_mem {l : List SceneObject} {i : Nat}
    (h : ¬ i ∈ listIds l) : listFind l i = none := by
  cases hf : listFind l i with
  | none => rfl
  | some y =>
    exact absurd ((find_isSome_iff_mem.2 l i).mp (by simp [hf])) h

theorem soFind_none_of_not_mem {x : SceneObject} {i : Nat}
    (h : ¬ i ∈ soIds x) : soFind x i = none := by
  cases hf : soFind x i with
  | none => rfl
  | some y =>
    exact absurd ((find_isSome_iff_mem.1 x i).mp (by simp [hf])) h

theorem find_destroy_none {l : List SceneObject} {i t : Nat}
    (h : listFind l t = none) : listFind (listDestroy l i) t = none := by
  apply find_none_of_not_mem
  intro hmem
  have ht : t ∈ listIds l := (destroy_ids_sublist.2 l i).subset hmem
  have := (find_isSome_iff_mem.2 l t).mpr ht
  simp [h] at this

theorem perm_swap_append (a b c : List Nat) : a ++ (b ++ c) ~ b ++ (a ++ c) := by
  rw [← List.append_assoc, ← List.append_assoc]
  exact List.perm_append_comm.append_right c

theorem find_destroy_perm :
    (∀ x : SceneObject, (soIds x).Nodup → ∀ i y, x.rootId ≠ i → soFind x i = some y →
      soIds x ~ soIds y ++ soIds (soDestroy x i)) ∧
    (∀ l : List SceneObject, (listIds l).Nodup → ∀ i y, listFind l i = some y →
      listIds l ~ soIds y ++ listIds (listDestroy l i)) := by
  refine so_list_induct
    (fun x => (soIds x).Nodup → ∀ i y, x.rootId ≠ i → soFind x i = some y →
      soIds x ~ soIds y ++ soIds (soDestroy x i))
    (fun l => (listIds l).Nodup → ∀ i y, listFind l i = some y →
      listIds l ~ soIds y ++ listIds (listDestroy l i)) ?_ ?_ ?_
  · intro d cs ih hnd i y hroot hfind
    simp only [SceneObject.rootId, SceneObject.data] at hroot
    simp only [soFind, if_neg hroot] at hfind
    simp only [soIds, List.nodup_cons] at hnd
    have hperm := ih hnd.2 i y hfind
    simp only [soDestroy, soIds]
    exact (hperm.cons d.id).trans List.perm_middle.symm
  · intro _ i y hfind
    simp [listFind] at hfind
  · intro c cs ihc ihcs hnd i y hfind
    simp only [listIds, List.nodup_append] at hnd
    obtain ⟨hnc, hncs, hdisj⟩ := hnd
    simp only [listFind] at hfind
    cases hf : soFind c i with
    | some z =>
      rw [hf] at hfind
      cases hfind
      have hmemc : i ∈ soIds c := (find_isSome_iff_mem.1 c i).mp (by simp [hf])
      have hnotcs : ¬ i ∈ listIds cs := fun hm => hdisj hmemc hm
      by_cases hroot : c.rootId = i
      · cases c with
        | mk d cs2 =>
          simp only [SceneObject.rootId, SceneObject.data] at hroot
          simp only [soFind, if_pos hroot] at hf
          cases hf
          simp only [listDestroy, SceneObject.rootId, SceneObject.data, if_pos hroot, listIds]
          rw [destroy_noop.2 cs i hnotcs]
      · have hperm := ihc hnc i _ hroot hf
        simp only [listDestroy, if_neg hroot, listIds]
        rw [destroy_noop.2 cs i hnotcs]
        exact (hperm.append_right (listIds cs)).trans
          (by rw [List.append_assoc])
    | none =>
      rw [hf] at hfind
      have hmemcs : i ∈ listIds cs := mem_of_find_some hfind
      have hnotc : ¬ i ∈ soIds c := fun hm => hdisj hm hmemcs
      have hroot : c.rootId ≠ i := fun he => hnotc (he ▸ root_mem_soIds c)
      have hperm := ihcs hncs i y hfind
      simp only [listDestroy, if_neg hroot, listIds]
      rw [destroy_noop.1 c i hnotc]
      exact (hperm.append_left (soIds c)).trans (perm_swap_append _ _ _)

theorem insAt_ids_perm : ∀ (k : Nat) (x : SceneObject) (l : List SceneObject),
    listIds (insAt k x l) ~ soIds x ++ listIds l := by
  intro k
  induction k with
  | zero =>
    intro x l
    simp [insAt, listIds]
  | succ k ih =>
    intro x l
    cases l with
    | nil => simp [insAt, listIds]
    | cons c cs =>
      simp only [insAt, listIds]
      exact ((ih x cs).append_left (soIds c)).trans (perm_swap_append _ _ _)

theorem insAt_find : ∀ (k : Nat) (x : SceneObject) (l : List SceneObject),
    ¬ x.rootId ∈ listIds l → listFind (insAt k x l) x.rootId = some x := by
  intro k
  induction k with
  | zero =>
    intro x l _
    simp [insAt, listFind, soFind_self]
  | succ k ih =>
    intro x l hni
    cases l with
    | nil => simp [insAt, listFind, soFind_self]
    | cons c cs =>
      simp only [listIds, List.mem_append, not_or] at hni
      simp only [insAt, listFind, soFind_none_of_not_mem hni.1]
      exact ih x cs hni.2

theorem insAt_root_mem : ∀ (k : Nat) (x : SceneObject) (l : List SceneObject),
    x.rootId ∈ (insAt k x l).map SceneObject.rootId := by
  intro k
  induction k with
  | zero =>
    intro x l
    simp [insAt]
  | succ k ih =>
    intro x l
    cases l with
    | nil => simp [insAt]
    | cons c cs =>
      simp only [insAt, List.map_cons, List.mem_cons]
      exact Or.inr (ih x cs)

theorem attach_ids_perm :
    (∀ x : SceneObject, (soIds x).Nodup → ∀ p k y, p ∈ soIds x →
      soIds (soAttach x p k y) ~ soIds y ++ soIds x) ∧
    (∀ l : List SceneObject, (listIds l).Nodup → ∀ p k y, p ∈ listIds l →
      listIds (listAttach l p k y) ~ soIds y ++ listIds l) := by
  refine so_list_induct
    (fun x => (soIds x).Nodup → ∀ p k y, p ∈ soIds x →
      soIds (soAttach x p k y) ~ soIds y ++ soIds x)
    (fun l => (listIds l).Nodup → ∀ p k y, p ∈ listIds l →
      listIds (listAttach l p k y) ~ soIds y ++ listIds l) ?_ ?_ ?_
  · intro d cs ih hnd p k y hp
    simp only [soIds, List.nodup_cons] at hnd
    by_cases hd : d.id = p
    · simp only [soAttach, if_pos hd, soIds]
      exact ((insAt_ids_perm k y cs).cons d.id).trans List.perm_middle.symm
    · have hpcs : p ∈ listIds cs := by
        simp only [soIds, List.mem_cons] at hp
        cases hp with
        | inl h => exact absurd h.symm hd
        | inr h => exact h
      simp only [soAttach, if_neg hd, soIds]
      exact ((ih hnd.2 p k y hpcs).cons d.id).trans List.perm_middle.symm
  · intro _ p k y hp
    simp [listIds] at hp
  · intro c cs ihc ihcs hnd p k y hp
    simp only [listIds, List.nodup_append] at hnd
    obtain ⟨hnc, hncs, hdisj⟩ := hnd
    simp only [listIds, List.mem_append] at hp
    cases hp with
    | inl hpc =>
      have hpcs : ¬ p ∈ listIds cs := fun hm => hdisj hpc hm
      simp only [listAttach, listIds]
      rw [attach_noop.2 cs p k y hpcs]
      exact ((ihc hnc p k y hpc).append_right (listIds cs)).trans
        (by rw [List.append_assoc])
    | inr hpcs =>
      have hpc : ¬ p ∈ soIds c := fun hm => hdisj hm hpcs
      simp only [listAttach, listIds]
      rw [attach_noop.1 c p k y hpc]
      exact ((ihcs hncs p k y hpcs).append_left (soIds c)).trans (perm_swap_append _ _ _)

theorem attach_find :
    (∀ x : SceneObject, (soIds x).Nodup → ∀ p k y, p ∈ soIds x → ¬ y.rootId ∈ soIds x →
      soFind (soAttach x p k y) y.rootId = some y) ∧
    (∀ l : List SceneObject, (listIds l).Nodup → ∀ p k y, p ∈ listIds l → ¬ y.rootId ∈ listIds l →
      listFind (listAttach l p k y) y.rootId = some y) := by
  refine so_list_induct
    (fun x => (soIds x).Nodup → ∀ p k y, p ∈ soIds x → ¬ y.rootId ∈ soIds x →
      soFind (soAttach x p k y) y.rootId = some y)
    (fun l => (listIds l).Nodup → ∀ p k y, p ∈ listIds l → ¬ y.rootId ∈ listIds l →
      listFind (listAttach l p k y) y.rootId = some y) ?_ ?_ ?_
  · intro d cs ih hnd p k y hp hy
    simp only [soIds, List.nodup_cons] at hnd
    simp only [soIds, List.mem_cons, not_or] at hy
    have hdy : d.id ≠ y.rootId := fun he => hy.1 he.symm
    by_cases hd : d.id = p
    · simp only [soAttach, if_pos hd, soFind, if_neg hdy]
      exact insAt_find k y cs hy.2
    · have hpcs : p ∈ listIds cs := by
        simp only [soIds, List.mem_cons] at hp
        cases hp with
        | inl h => exact absurd h.symm hd
        | inr h => exact h
      simp only [soAttach, if_neg hd, soFind, if_neg hdy]
      exact ih hnd.2 p k y hpcs hy.2
  · intro _ p k y hp
    simp [listIds] at hp
  · intro c cs ihc ihcs hnd p k y hp hy
    simp only [listIds, List.nodup_append] at hnd
    obtain ⟨hnc, hncs, hdisj⟩ := hnd
    simp only [listIds, List.mem_append, not_or] at hy
    simp only [listIds, List.mem_append] at hp
    cases hp with
    | inl hpc =>
      simp only [listAttach, listFind, ihc hnc p k y hpc hy.1]
    | inr hpcs =>
      have hpc : ¬ p ∈ soIds c := fun hm => hdisj hm hpcs
      simp only [listAttach, listFind]
      rw [attach_noop.1 c p k y hpc, soFind_none_of_not_mem hy.1]
      exact ihcs hncs p k y hpcs hy.2

theorem attach_parent_find :
    (∀ x : SceneObject, (soIds x).Nodup → ∀ p k y d2 cs2,
      soFind x p = some (SceneObject.mk d2 cs2) →
      soFind (soAttach x p k y) p = some (SceneObject.mk d2 (insAt k y cs2))) ∧
    (∀ l : List SceneObject, (listIds l).Nodup → ∀ p k y d2 cs2,
      listFind l p = some (SceneObject.mk d2 cs2) →
      listFind (listAttach l p k y) p = some (SceneObject.mk d2 (insAt k y cs2))) := by
  refine so_list_induct
    (fun x => (soIds x).Nodup → ∀ p k y d2 cs2,
      soFind x p = some (SceneObject.mk d2 cs2) →
      soFind (soAttach x p k y) p = some (SceneObject.mk d2 (insAt k y cs2)))
    (fun l => (listIds l).Nodup → ∀ p k y d2 cs2,
      listFind l p = some (SceneObject.mk d2 cs2) →
      listFind (listAttach l p k y) p = some (SceneObject.mk d2 (insAt k y cs2))) ?_ ?_ ?_
  · intro d cs ih hnd p k y d2 cs2 hfind
    simp only [soIds, List.nodup_cons] at hnd
    by_cases hd : d.id = p
    · simp only [soFind, if_pos hd] at hfind
      cases hfind
      simp only [soAttach, if_pos hd, soFind, if_pos hd]
    · simp only [soFind, if_neg hd] at hfind
      simp only [soAttach, if_neg hd, soFind, if_neg hd]
      exact ih hnd.2 p k y d2 cs2 hfind
  · intro _ p k y d2 cs2 hfind
    simp [listFind] at hfind
  · intro c cs ihc ihcs hnd p k y d2 cs2 hfind
    simp only [listIds, List.nodup_append] at hnd
    obtain ⟨hnc, hncs, hdisj⟩ := hnd
    simp only [listFind] at hfind
    cases hf : soFind c p with
    | some z =>
      rw [hf] at hfind
      cases hfind
      simp only [listAttach, listFind, ihc hnc p k y d2 cs2 hf]
    | none =>
      rw [hf] at hfind
      have hpc : ¬ p ∈ soIds c := by
        intro hm
        have := (find_isSome_iff_mem.1 c p).mpr hm
        simp [hf] at this
      simp only [listAttach, listFind]
      rw [attach_noop.1 c p k y hpc, hf]
      exact ihcs hncs p k y d2 cs2 hfind

theorem nearestSurviving_some_contains : ∀ (ch : List Nat) (g : SceneGraph) (p : Nat),
    nearestSurviving ch g = some p → sgContains g p = true := by
  intro ch
  induction ch with
  | nil =>
    intro g p h
    simp [nearestSurviving] at h
  | cons q qs ih =>
    intro g p h
    simp only [nearestSurviving] at h
    by_cases hq : sgContains g q = true
    · rw [if_pos hq] at h
      cases h
      exact hq
    · rw [if_neg hq] at h
      exact ih g p h

theorem find_destroy_inner :
    (∀ x : SceneObject, (soIds x).Nodup → ∀ t y i, soFind x t = some y →
      i ∈ soIds y → i ≠ t → soFind (soDestroy x i) t = some (soDestroy y i)) ∧
    (∀ l : List SceneObject, (listIds l).Nodup → ∀ t y i, listFind l t = some y →
      i ∈ soIds y → i ≠ t → listFind (listDestroy l i) t = some (soDestroy y i)) := by
  refine so_list_induct
    (fun x => (soIds x).Nodup → ∀ t y i, soFind x t = some y →
      i ∈ soIds y → i ≠ t → soFind (soDestroy x i) t = some (soDestroy y i))
    (fun l => (listIds l).Nodup → ∀ t y i, listFind l t = some y →
      i ∈ soIds y → i ≠ t → listFind (listDestroy l i) t = some (soDestroy y i)) ?_ ?_ ?_
  · intro d cs ih hnd t y i hfind hi hit
    simp only [soIds, List.nodup_cons] at hnd
    by_cases hd : d.id = t
    · simp only [soFind, if_pos hd] at hfind
      cases hfind
      simp only [soDestroy, soFind, if_pos hd]
    · simp only [soFind, if_neg hd] at hfind
      simp only [soDestroy, soFind, if_neg hd]
      exact ih hnd.2 t y i hfind hi hit
  · intro _ t y i hfind
    simp [listFind] at hfind
  · intro c cs ihc ihcs hnd t y i hfind hi hit
    simp only [listIds, List.nodup_append] at hnd
    obtain ⟨hnc, hncs, hdisj⟩ := hnd
    simp only [listFind] at hfind
    cases hf : soFind c t with
    | some z =>
      rw [hf] at hfind
      cases hfind
      have hic : i ∈ soIds c := (find_ids_sublist.1 c t y hf).subset hi
      have hroot : c.rootId ≠ i := by
        intro he
        cases c with
        | mk d cs2 =>
          simp only [SceneObject.rootId, SceneObject.data] at he
          have hdt : d.id ≠ t := by
            rw [he]
            exact hit
          simp only [soFind, if_neg hdt] at hf
          have : i ∈ listIds cs2 := (find_ids_sublist.2 cs2 t y hf).subset hi
          simp only [soIds, List.nodup_cons] at hnc
          rw [← he] at this
          exact hnc.1 this
      simp only [listDestroy, if_neg hroot, listFind,
        ihc hnc t y i hf hi hit]
    | none =>
      rw [hf] at hfind
      have hics : i ∈ listIds cs := (find_ids_sublist.2 cs t y hfind).subset hi
      have hnotc : ¬ i ∈ soIds c := fun hm => hdisj hm hics
      have hroot : c.rootId ≠ i := fun he => hnotc (he ▸ root_mem_soIds c)
      simp only [listDestroy, if_neg hroot, listFind]
      rw [destroy_noop.1 c i hnotc, hf]
      exact ihcs hncs t y i hfind hi hit

theorem setTransform_ids : ∀ (i : Nat) (t : Int × Int × Int),
    (∀ x : SceneObject, soIds (soSetTransform x i t) = soIds x) ∧
    (∀ l : List SceneObject, listIds (listSetTransform l i t) = listIds l) := by
  intro i t
  refine so_list_induct
    (fun x => soIds (soSetTransform x i t) = soIds x)
    (fun l => listIds (listSetTransform l i t) = listIds l) ?_ ?_ ?_
  · intro d cs ih
    by_cases hd : d.id = i
    · simp [soSetTransform, soIds, hd, ih]
    · simp [soSetTransform, soIds, hd, ih]
  · simp [listSetTransform, listIds]
  · intro c cs ihc ihcs
    simp [listSetTransform, listIds, ihc, ihcs]

theorem setTransform_noop : ∀ (i : Nat) (t : Int × Int × Int),
    (∀ x : SceneObject, ¬ i ∈ soIds x → soSetTransform x i t = x) ∧
    (∀ l : List SceneObject, ¬ i ∈ listIds l → listSetTransform l i t = l) := by
  intro i t
  refine so_list_induct
    (fun x => ¬ i ∈ soIds x → soSetTransform x i t = x)
    (fun l => ¬ i ∈ listIds l → listSetTransform l i t = l) ?_ ?_ ?_
  · intro d cs ih hni
    simp only [soIds, List.mem_cons, not_or] at hni
    have hd : d.id ≠ i := fun he => hni.1 he.symm
    simp [soSetTransform, hd, ih hni.2]
  · intro _
    simp [listSetTransform]
  · intro c cs ihc ihcs hni
    simp only [listIds, List.mem_append, not_or] at hni
    simp [listSetTransform, ihc hni.1, ihcs hni.2]

theorem setTransform_find : ∀ (i : Nat) (t : Int × Int × Int),
    (∀ x : SceneObject,
      soFind (soSetTransform x i t) i = (soFind x i).map (fun y => soSetTransform y i t)) ∧
    (∀ l : List SceneObject,
      listFind (listSetTransform l i t) i = (listFind l i).map (fun y => soSetTransform y i t)) := by
  intro i t
  refine so_list_induct
    (fun x => soFind (soSetTransform x i t) i = (soFind x i).map (fun y => soSetTransform y i t))
    (fun l => listFind (listSetTransform l i t) i = (listFind l i).map (fun y => soSetTransform y i t)) ?_ ?_ ?_
  · intro d cs ih
    by_cases hd : d.id = i
    · simp [soSetTransform, soFind, hd]
    · simp [soSetTransform, soFind, hd, ih]
  · simp [listSetTransform, listFind]
  · intro c cs ihc ihcs
    simp only [listSetTransform, listFind, ihc]
    cases hf : soFind c i with
    | some y => simp
    | none => simp [ihcs]

theorem setTransform_root_shape (x : SceneObject) (i : Nat) (t : Int × Int × Int)
    (hnd : (soIds x).Nodup) (hroot : x.rootId = i) :
    soSetTransform x i t =
      SceneObject.mk
        { x.data with position := t.1, rotation := t.2.1, scale := t.2.2 } x.children := by
  cases x with
  | mk d cs =>
    simp only [SceneObject.rootId, SceneObject.data] at hroot
    simp only [soIds, List.nodup_cons] at hnd
    have hni : ¬ i ∈ listIds cs := hroot ▸ hnd.1
    simp [soSetTransform, hroot, (setTransform_noop i t).2 cs hni,
      SceneObject.data, SceneObject.children]

theorem sgAttach_find (g : SceneGraph) (pOpt : Option Nat) (k : Nat) (x : SceneObject)
    (hnd : (sgIds g).Nodup)
    (hvalid : ∀ p, pOpt = some p → sgContains g p = true)
    (hnew : ¬ x.rootId ∈ sgIds g) :
    sgFind (sgAttach g pOpt k x) x.rootId = some x := by
  cases pOpt with
  | none =>
    simp only [sgAttach, sgFind]
    exact insAt_find k x g hnew
  | some p =>
    have hc := hvalid p rfl
    simp only [sgContains] at hc
    have hp : p ∈ listIds g := (find_isSome_iff_mem.2 g p).mp hc
    simp only [sgAttach, sgFind]
    exact attach_find.2 g hnd p k x hp hnew

theorem sgAttach_ids_perm (g : SceneGraph) (pOpt : Option Nat) (k : Nat) (x : SceneObject)
    (hnd : (sgIds g).Nodup)
    (hvalid : ∀ p, pOpt = some p → sgContains g p = true) :
    sgIds (sgAttach g pOpt k x) ~ soIds x ++ sgIds g := by
  cases pOpt with
  | none =>
    simp only [sgAttach, sgIds]
    exact insAt_ids_perm k x g
  | some p =>
    have hc := hvalid p rfl
    simp only [sgContains] at hc
    have hp : p ∈ listIds g := (find_isSome_iff_mem.2 g p).mp hc
    simp only [sgAttach, sgIds]
    exact attach_ids_perm.2 g hnd p k x hp

/-- State machine of a snapshot command, from the spec:
Empty, Captured, Committed, Reverted. -/
inductive CmdState where
  | empty
  | captured
  | committed
  | reverted
deriving DecidableEq, Repr

/-- Error taxonomy of the snapshot protocol.  The dangling-parent
condition is deliberately absent: it is recovered locally, never
surfaced as a failure. -/
inductive CmdError where
  | invalidStateTransition
  | serializationError
  | corruptBlobError
deriving DecidableEq, Repr

/-- The undo/redo command of BsCmdRecordSO.h: the target node handle,
the captured topology proxy, the hierarchy policy flag, the serialized
snapshot blob (its size being the list length, subsuming the separate
mSerializedObjectSize member of the source), the display description
and the capture state. -/
structure CmdRecordSO where
  mSceneObject : Nat
  mSceneObjectProxy : SceneObjProxy
  mRecordHierarchy : Bool
  mSerializedObject : List Nat
  description : String
  state : CmdState
deriving DecidableEq, Repr

/-- Modelled from the spec: the private constructor
CmdRecordSO(description, sceneObject, recordHierarchy) - a fresh,
Empty command with no capture. -/
def CmdRecordSO.make (desc : String) (so : Nat) (rh : Bool) : CmdRecordSO :=
  ⟨so, ⟨so, [], 0⟩, rh, [], desc, .empty⟩

/-- Modelled from the spec: CmdRecordSO::clear - releases the blob and
the proxy and returns to Empty; safe from every state. -/
def CmdRecordSO.clear (c : CmdRecordSO) : CmdRecordSO :=
  { c with mSerializedObject := [],
           mSceneObjectProxy := ⟨c.mSceneObject, [], 0⟩,
           state := .empty }

/-- Modelled from the spec: CmdRecordSO::recordSO - requires state Empty
(recapturing without clearing is an InvalidStateTransition contract
violation), checks the handle for liveness (a destroyed node cannot be
serialized), captures the topology proxy, encodes the snapshot and
transitions to Captured. -/
def CmdRecordSO.recordSO (c : CmdRecordSO) (g : SceneGraph) : Except CmdError CmdRecordSO :=
  if c.state = .empty then
    match sgFind g c.mSceneObject with
    | none => .error .serializationError
    | some x =>
      .ok { c with mSerializedObject := encodeSO x c.mRecordHierarchy,
                   mSceneObjectProxy := SceneObjProxy.capture g c.mSceneObject,
                   state := .captured }
  else .error .invalidStateTransition

/-- Modelled from the spec: the single atomic re-record operation -
clear then capture, exposed as one step, never as two interleavable
public calls. -/
def CmdRecordSO.reRecord (c : CmdRecordSO) (g : SceneGraph) : Except CmdError CmdRecordSO :=
  c.clear.recordSO g

/-- Modelled from the spec: how a decoded snapshot replaces the current
live node.  With hierarchy recording the whole decoded subtree stands
in; without it only the node state is restored and the current live
children are kept untouched. -/
def mergeRestored (dec cur : SceneObject) (rh : Bool) : SceneObject :=
  if rh then dec else SceneObject.mk dec.data cur.children

/-- Modelled from the spec: the shared restore path of revert (undo)
and of redo-after-revert.  Decodes the stored blob (CorruptBlobError
aborts the attempt with the command and graph untouched), checks the
decoded root against the recorded identity token, re-records the state
that exists just before restoring, then destroys the current live node
and reattaches the decoded subtree at the proxy position - under the
nearest surviving ancestor, or the graph root, when the recorded
parent no longer lives. -/
def CmdRecordSO.restoreStep (c : CmdRecordSO) (g : SceneGraph) :
    Except CmdError (CmdRecordSO × SceneGraph) :=
  match decodeBlob c.mSerializedObject with
  | none => .error .corruptBlobError
  | some dec =>
    if dec.rootId = c.mSceneObjectProxy.idToken then
      match sgFind g c.mSceneObject with
      | none => .error .serializationError
      | some cur =>
        let restored := mergeRestored dec cur c.mRecordHierarchy
        let detached := sgDestroy g c.mSceneObject
        let g2 := sgAttach detached
          (nearestSurviving c.mSceneObjectProxy.ancestors detached)
          c.mSceneObjectProxy.ordinal restored
        .ok ({ c with mSceneObject := restored.rootId,
                      mSerializedObject := encodeSO cur c.mRecordHierarchy,
                      mSceneObjectProxy := SceneObjProxy.capture g c.mSceneObject }, g2)
    else .error .corruptBlobError

/-- Modelled from the spec: CmdRecordSO::revert - requires a non-Empty
state, restores the snapshot and transitions to Reverted. -/
def CmdRecordSO.revert (c : CmdRecordSO) (g : SceneGraph) :
    Except CmdError (CmdRecordSO × SceneGraph) :=
  if c.state = .empty then .error .invalidStateTransition
  else (c.restoreStep g).map (fun p => ({ p.1 with state := .reverted }, p.2))

/-- Modelled from the spec: CmdRecordSO::commit - after a normal capture
the edit was already applied by the initiator, so commit is bookkeeping
only; after a revert the re-recorded snapshot is restored so that
commit can redo forward again. -/
def CmdRecordSO.commit (c : CmdRecordSO) (g : SceneGraph) :
    Except CmdError (CmdRecordSO × SceneGraph) :=
  match c.state with
  | .empty => .error .invalidStateTransition
  | .reverted => (c.restoreStep g).map (fun p => ({ p.1 with state := .committed }, p.2))
  | _ => .ok ({ c with state := .committed }, g)

/-- The blank default description of the source header. -/
def StringUtil.WBLANK : String := ""

/-- Modelled from the spec: CmdRecordSO::execute - constructs the
command, immediately records the target, and registers the command
with the undo/redo history; the live graph is returned untouched. -/
def CmdRecordSO.execute (g : SceneGraph) (undoRedo : List CmdRecordSO)
    (so : Nat) (rh : Bool) (desc : String) :
    Except CmdError (List CmdRecordSO × SceneGraph) :=
  ((CmdRecordSO.make desc so rh).recordSO g).map (fun c => (c :: undoRedo, g))

/-- The entry point as called with the header defaults:
recordHierarchy = false and description = StringUtil::WBLANK. -/
def CmdRecordSO.executeDefault (g : SceneGraph) (undoRedo : List CmdRecordSO) (so : Nat) :
    Except CmdError (List CmdRecordSO × SceneGraph) :=
  CmdRecordSO.execute g undoRedo so false StringUtil.WBLANK

theorem restoreStep_eq (c : CmdRecordSO) (g : SceneGraph) (y cur : SceneObject)
    (hblob : c.mSerializedObject = encodeSO y c.mRecordHierarchy)
    (htok : y.rootId = c.mSceneObjectProxy.idToken)
    (hcur : sgFind g c.mSceneObject = some cur) :
    c.restoreStep g = .ok
      ({ c with
          mSceneObject := (if c.mRecordHierarchy then y else SceneObject.mk y.data cur.children).rootId,
          mSerializedObject := encodeSO cur c.mRecordHierarchy,
          mSceneObjectProxy := SceneObjProxy.capture g c.mSceneObject },
       sgAttach (sgDestroy g c.mSceneObject)
         (nearestSurviving c.mSceneObjectProxy.ancestors (sgDestroy g c.mSceneObject))
         c.mSceneObjectProxy.ordinal
         (if c.mRecordHierarchy then y else SceneObject.mk y.data cur.children)) := by
  unfold CmdRecordSO.restoreStep
  cases hrh : c.mRecordHierarchy with
  | true =>
    rw [hblob, hrh, decodeBlob_encodeSO, hcur]
    simp only [mergeRestored, htok, if_true, if_pos]
  | false =>
    rw [hblob, hrh, decodeBlob_encodeSO_shallow, hcur]
    have hroot : (SceneObject.mk y.data []).rootId = c.mSceneObjectProxy.idToken := htok
    simp [mergeRestored, hroot, SceneObject.data]
    exact htok

theorem restoreStep_ok_shape (c : CmdRecordSO) (g : SceneGraph)
    (p : CmdRecordSO × SceneGraph) (h : c.restoreStep g = .ok p) :
    ∃ cur, p.1.mSerializedObject = encodeSO cur c.mRecordHierarchy ∧ p.1.state = c.state := by
  unfold CmdRecordSO.restoreStep at h
  split at h
  · exact absurd h (by simp)
  · split at h
    · split at h
      · exact absurd h (by simp)
      · next cur hf =>
        simp only [Except.ok.injEq] at h
        refine ⟨cur, ?_, ?_⟩ <;> rw [← h]
    · exact absurd h (by simp)

theorem recordSO_not_empty (c : CmdRecordSO) (g : SceneGraph) (h : c.state ≠ .empty) :
    c.recordSO g = .error .invalidStateTransition := by
  unfold CmdRecordSO.recordSO
  rw [if_neg h]

/-- A transition a command can undergo: one of its own operations
succeeding, a clear, or an external edit of the live graph between
operations. -/
inductive CmdStep : CmdRecordSO × SceneGraph → CmdRecordSO × SceneGraph → Prop where
  | recordStep (c : CmdRecordSO) (g : SceneGraph) (c2 : CmdRecordSO) :
      c.recordSO g = .ok c2 → CmdStep (c, g) (c2, g)
  | commitStep (c : CmdRecordSO) (g : SceneGraph) (c2 : CmdRecordSO) (g2 : SceneGraph) :
      c.commit g = .ok (c2, g2) → CmdStep (c, g) (c2, g2)
  | revertStep (c : CmdRecordSO) (g : SceneGraph) (c2 : CmdRecordSO) (g2 : SceneGraph) :
      c.revert g = .ok (c2, g2) → CmdStep (c, g) (c2, g2)
  | clearStep (c : CmdRecordSO) (g : SceneGraph) : CmdStep (c, g) (c.clear, g)
  | externalEdit (c : CmdRecordSO) (g g2 : SceneGraph) : CmdStep (c, g) (c, g2)

theorem cmd_capture_invariant (a b : CmdRecordSO × SceneGraph)
    (hstart : a.1.state = .empty ↔ a.1.mSerializedObject = [])
    (h : Relation.ReflTransGen CmdStep a b) :
    b.1.state = .empty ↔ b.1.mSerializedObject = [] := by
  induction h with
  | refl => exact hstart
  | tail hab hbc ih =>
    cases hbc with
    | recordStep c g c2 hr =>
      unfold CmdRecordSO.recordSO at hr
      by_cases hs : c.state = .empty
      · rw [if_pos hs] at hr
        cases hf : sgFind g c.mSceneObject with
        | none => rw [hf] at hr; exact absurd hr (by simp)
        | some x =>
          rw [hf] at hr
          simp only [Except.ok.injEq] at hr
          obtain ⟨cso, cpx, crh, cblob, cdesc, cst⟩ := c
          rw [← hr]
          simp [encodeSO_ne_nil]
      · rw [if_neg hs] at hr
        exact absurd hr (by simp)
    | commitStep c g c2 g2 hc =>
      unfold CmdRecordSO.commit at hc
      cases hs : c.state with
      | empty => rw [hs] at hc; exact absurd hc (by simp)
      | reverted =>
        rw [hs] at hc
        cases hr : c.restoreStep g with
        | error e => rw [hr] at hc; exact absurd hc (by simp [Except.map])
        | ok p =>
          rw [hr] at hc
          simp only [Except.map, Except.ok.injEq, Prod.mk.injEq] at hc
          obtain ⟨cur, hblob, _⟩ := restoreStep_ok_shape c g p hr
          obtain ⟨pc, pg⟩ := p
          obtain ⟨ps1, ps2, ps3, ps4, ps5, ps6⟩ := pc
          rw [← hc.1]
          simp only [] at hblob
          simp [hblob, encodeSO_ne_nil]
      | captured =>
        rw [hs] at hc
        simp only [Except.ok.injEq, Prod.mk.injEq] at hc
        have hblob : c.mSerializedObject ≠ [] := by
          intro hb
          have he := ih.mpr hb
          rw [hs] at he
          exact absurd he (by simp)
        obtain ⟨cso, cpx, crh, cblob, cdesc, cst⟩ := c
        rw [← hc.1]
        simpa using hblob
      | committed =>
        rw [hs] at hc
        simp only [Except.ok.injEq, Prod.mk.injEq] at hc
        have hblob : c.mSerializedObject ≠ [] := by
          intro hb
          have he := ih.mpr hb
          rw [hs] at he
          exact absurd he (by simp)
        obtain ⟨cso, cpx, crh, cblob, cdesc, cst⟩ := c
        rw [← hc.1]
        simpa using hblob
    | revertStep c g c2 g2 hv =>
      unfold CmdRecordSO.revert at hv
      by_cases hs : c.state = .empty
      · rw [if_pos hs] at hv; exact absurd hv (by simp)
      · rw [if_neg hs] at hv
        cases hr : c.restoreStep g with
        | error e => rw [hr] at hv; exact absurd hv (by simp [Except.map])
        | ok p =>
          rw [hr] at hv
          simp only [Except.map, Except.ok.injEq, Prod.mk.injEq] at hv
          obtain ⟨cur, hblob, _⟩ := restoreStep_ok_shape c g p hr
          obtain ⟨pc, pg⟩ := p
          obtain ⟨ps1, ps2, ps3, ps4, ps5, ps6⟩ := pc
          rw [← hv.1]
          simp only [] at hblob
          simp [hblob, encodeSO_ne_nil]
    | clearStep c g =>
      simp [CmdRecordSO.clear]
    | externalEdit c g g2 =>
      exact ih

/-- C2: codec round trip - decoding the deep encoding of any subtree
yields a detached subtree equal to the original: identical attribute
values and identical topology (same descendants in the same sibling
order); in this model even the root identity token is preserved, which
the claim permits. -/
theorem codec_round_trip (x : SceneObject) :
    decodeBlob (encodeSO x true) = some x :=
  decodeBlob_encodeSO x

/-- C3: revert atomicity on failure - from any non-Empty state, when the
stored blob does not decode, the revert attempt fails with
CorruptBlobError and produces no new command or graph state at all: the
pre-revert command and live graph stand untouched. -/
theorem revert_atomic_on_corrupt_blob (c : CmdRecordSO) (g : SceneGraph)
    (hstate : c.state ≠ .empty) (hcorrupt : decodeBlob c.mSerializedObject = none) :
    c.revert g = .error .corruptBlobError := by
  unfold CmdRecordSO.revert CmdRecordSO.restoreStep
  rw [if_neg hstate, hcorrupt]
  rfl

theorem revert_atomic_on_corrupt_blob_witness :
    CmdRecordSO.revert ⟨1, ⟨1, [], 0⟩, false, [5], StringUtil.WBLANK, .captured⟩ [] =
      .error .corruptBlobError :=
  revert_atomic_on_corrupt_blob ⟨1, ⟨1, [], 0⟩, false, [5], StringUtil.WBLANK, .captured⟩ []
    (by decide) rfl

/-- C4: single-live-capture invariant - along every reachable state of a
command created by the constructor, the command is Empty exactly when it
holds no serialized capture (at most one capture is ever live), and
recordSO called in any non-Empty state is refused with
InvalidStateTransition, so re-recording is only possible through the
atomic clear-then-capture operation. -/
theorem record_single_live_capture (desc : String) (so : Nat) (rh : Bool) (g0 : SceneGraph)
    (c : CmdRecordSO) (g : SceneGraph)
    (h : Relation.ReflTransGen CmdStep (CmdRecordSO.make desc so rh, g0) (c, g)) :
    (c.state ≠ .empty → ∀ g2, c.recordSO g2 = .error .invalidStateTransition) ∧
    (c.state = .empty ↔ c.mSerializedObject = []) := by
  constructor
  · intro hne g2
    exact recordSO_not_empty c g2 hne
  · exact cmd_capture_invariant _ (c, g) (by simp [CmdRecordSO.make]) h

theorem record_single_live_capture_witness :
    (((CmdRecordSO.make StringUtil.WBLANK 1 false).state ≠ .empty →
      ∀ g2, (CmdRecordSO.make StringUtil.WBLANK 1 false).recordSO g2 =
        .error .invalidStateTransition) ∧
    ((CmdRecordSO.make StringUtil.WBLANK 1 false).state = .empty ↔
      (CmdRecordSO.make StringUtil.WBLANK 1 false).mSerializedObject = [])) :=
  record_single_live_capture StringUtil.WBLANK 1 false [] _ []
    Relation.ReflTransGen.refl

/-- C5: idempotence of commit - whenever a commit succeeds, committing
again right away without an intervening revert is a complete no-op: the
second call returns the same command and the same live graph unchanged,
performing only bookkeeping. -/
theorem commit_idempotent (c : CmdRecordSO) (g : SceneGraph) (c2 : CmdRecordSO)
    (g2 : SceneGraph) (h : c.commit g = .ok (c2, g2)) :
    c2.commit g2 = .ok (c2, g2) := by
  have hst : c2.state = .committed := by
    unfold CmdRecordSO.commit at h
    cases hs : c.state with
    | empty => rw [hs] at h; exact absurd h (by simp)
    | reverted =>
      rw [hs] at h
      cases hr : c.restoreStep g with
      | error e => rw [hr] at h; exact absurd h (by simp [Except.map])
      | ok p =>
        rw [hr] at h
        simp only [Except.map, Except.ok.injEq, Prod.mk.injEq] at h
        rw [← h.1]
    | captured =>
      rw [hs] at h
      simp only [Except.ok.injEq, Prod.mk.injEq] at h
      rw [← h.1]
    | committed =>
      rw [hs] at h
      simp only [Except.ok.injEq, Prod.mk.injEq] at h
      rw [← h.1]
  unfold CmdRecordSO.commit
  obtain ⟨cso, cpx, crh, cblob, cdesc, cst⟩ := c2
  simp only [] at hst
  rw [hst]

theorem commit_idempotent_witness :
    CmdRecordSO.commit ⟨1, ⟨1, [], 0⟩, false, [5], StringUtil.WBLANK, .committed⟩ [] =
      .ok (⟨1, ⟨1, [], 0⟩, false, [5], StringUtil.WBLANK, .committed⟩, []) :=
  commit_idempotent ⟨1, ⟨1, [], 0⟩, false, [5], StringUtil.WBLANK, .captured⟩ [] _ _ rfl

/-- C9: frame property of execute - the construction entry point only
captures state and registers the command with the history list; whenever
it returns, the live scene graph it hands back is exactly the input
graph, with every node, transform, component and topology relation
unchanged. -/
theorem execute_frame (g : SceneGraph) (ur : List CmdRecordSO) (so : Nat) (rh : Bool)
    (desc : String) (res : List CmdRecordSO × SceneGraph)
    (h : CmdRecordSO.execute g ur so rh desc = .ok res) : res.2 = g := by
  unfold CmdRecordSO.execute at h
  cases hr : (CmdRecordSO.make desc so rh).recordSO g with
  | error e => rw [hr] at h; exact absurd h (by simp [Except.map])
  | ok c =>
    rw [hr] at h
    simp only [Except.map, Except.ok.injEq] at h
    rw [← h]

/-- A one-node sample graph for the witnesses. -/
def wGraph : SceneGraph := [SceneObject.mk ⟨1, 10, 20, 30, [7]⟩ []]

theorem execute_frame_witness :
    ∃ r, CmdRecordSO.execute wGraph [] 1 false StringUtil.WBLANK = .ok r ∧ r.2 = wGraph :=
  ⟨_, rfl, execute_frame wGraph [] 1 false StringUtil.WBLANK _ rfl⟩

/-- C10: default arguments of the public entry point - calling execute
with only a scene object is the call with recordHierarchy = false and
the blank description, and the blank default is the empty string. -/
theorem execute_default_args (g : SceneGraph) (ur : List CmdRecordSO) (so : Nat) :
    CmdRecordSO.executeDefault g ur so =
      CmdRecordSO.execute g ur so false StringUtil.WBLANK ∧
    StringUtil.WBLANK = "" :=
  ⟨rfl, rfl⟩

/-- The node that replaces the live target during a restore: the decoded
root grafted per the hierarchy policy. -/
def mergeD (y cur : SceneObject) (rh : Bool) : SceneObject :=
  if rh then y else SceneObject.mk y.data cur.children

/-- The command and graph a successful restore produces, given the
subtree y held by the blob and the current live subtree cur. -/
def restoreResult (c : CmdRecordSO) (g : SceneGraph) (y cur : SceneObject) :
    CmdRecordSO × SceneGraph :=
  ({ c with mSceneObject := (mergeD y cur c.mRecordHierarchy).rootId,
            mSerializedObject := encodeSO cur c.mRecordHierarchy,
            mSceneObjectProxy := SceneObjProxy.capture g c.mSceneObject },
   sgAttach (sgDestroy g c.mSceneObject)
     (nearestSurviving c.mSceneObjectProxy.ancestors (sgDestroy g c.mSceneObject))
     c.mSceneObjectProxy.ordinal (mergeD y cur c.mRecordHierarchy))

theorem restoreStep_eq2 (c : CmdRecordSO) (g : SceneGraph) (y cur : SceneObject)
    (hblob : c.mSerializedObject = encodeSO y c.mRecordHierarchy)
    (htok : y.rootId = c.mSceneObjectProxy.idToken)
    (hcur : sgFind g c.mSceneObject = some cur) :
    c.restoreStep g = .ok (restoreResult c g y cur) := by
  rw [restoreStep_eq c g y cur hblob htok hcur]
  rfl

theorem revert_eq (c : CmdRecordSO) (g : SceneGraph) (y cur : SceneObject)
    (hblob : c.mSerializedObject = encodeSO y c.mRecordHierarchy)
    (htok : y.rootId = c.mSceneObjectProxy.idToken)
    (hcur : sgFind g c.mSceneObject = some cur)
    (hne : c.state ≠ .empty) :
    c.revert g = .ok
      ({ (restoreResult c g y cur).1 with state := .reverted },
       (restoreResult c g y cur).2) := by
  unfold CmdRecordSO.revert
  rw [if_neg hne, restoreStep_eq2 c g y cur hblob htok hcur]
  rfl

theorem commit_redo_eq (c : CmdRecordSO) (g : SceneGraph) (y cur : SceneObject)
    (hblob : c.mSerializedObject = encodeSO y c.mRecordHierarchy)
    (htok : y.rootId = c.mSceneObjectProxy.idToken)
    (hcur : sgFind g c.mSceneObject = some cur)
    (hst : c.state = .reverted) :
    c.commit g = .ok
      ({ (restoreResult c g y cur).1 with state := .committed },
       (restoreResult c g y cur).2) := by
  unfold CmdRecordSO.commit
  rw [hst]
  show (c.restoreStep g).map (fun p => ({ p.1 with state := CmdState.committed }, p.2)) = _
  rw [restoreStep_eq2 c g y cur hblob htok hcur]
  rfl

theorem attach_view_core (g2 : SceneGraph) (ch : List Nat) (k : Nat) (z : SceneObject)
    (hnd : (sgIds g2).Nodup) (hznew : ¬ z.rootId ∈ sgIds g2) :
    sgFind (sgAttach g2 (nearestSurviving ch g2) k z) z.rootId = some z :=
  sgAttach_find g2 _ k z hnd (fun p hp => nearestSurviving_some_contains ch g2 p hp) hznew

theorem attach_view_nodup (g2 : SceneGraph) (ch : List Nat) (k : Nat) (z : SceneObject)
    (hnd : (sgIds g2).Nodup) (hzn : (soIds z).Nodup)
    (hdisj : ∀ j ∈ soIds z, ¬ j ∈ sgIds g2) :
    (sgIds (sgAttach g2 (nearestSurviving ch g2) k z)).Nodup := by
  have hperm := sgAttach_ids_perm g2 _ k z hnd
    (fun p hp => nearestSurviving_some_contains ch g2 p hp)
  rw [hperm.nodup_iff, List.nodup_append]
  exact ⟨hzn, hnd, hdisj⟩

theorem destroy_cur_nodup_disj (g : SceneGraph) (t : Nat) (cur : SceneObject)
    (hnd : (sgIds g).Nodup) (hcur : sgFind g t = some cur) :
    (soIds cur).Nodup ∧ ∀ j ∈ soIds cur, ¬ j ∈ sgIds (sgDestroy g t) := by
  have hperm := find_destroy_perm.2 g hnd t cur hcur
  have h2 : (soIds cur ++ sgIds (sgDestroy g t)).Nodup := hperm.nodup_iff.mp hnd
  rw [List.nodup_append] at h2
  exact ⟨h2.1, h2.2.2⟩

/-- C1: undo/redo symmetry - record the node, let the caller overwrite
its transform externally, revert, and the transform of the restored node
is exactly its pre-mutation value; the subsequent commit redoes forward
and reapplies the mutated value exactly (equality of the stored
transform fields, the bit-pattern stand-ins). -/
theorem undo_redo_symmetry (g : SceneGraph) (t : Nat) (x : SceneObject)
    (p q r : Int) (desc : String) (rh : Bool)
    (hnd : (sgIds g).Nodup) (hx : sgFind g t = some x) :
    ∃ c c1 G1 c2 G2,
      (CmdRecordSO.make desc t rh).recordSO g = .ok c ∧
      c.revert (sgSetTransform g t (p, q, r)) = .ok (c1, G1) ∧
      transformOf G1 t = some (x.data.position, x.data.rotation, x.data.scale) ∧
      c1.commit G1 = .ok (c2, G2) ∧
      transformOf G2 t = some (p, q, r) := by
  have hxr : x.rootId = t := find_rootId.2 g t x hx
  have hndx : (soIds x).Nodup := (find_ids_sublist.2 g t x hx).nodup hnd
  set g1 : SceneGraph := sgSetTransform g t (p, q, r) with hg1
  set xm : SceneObject := soSetTransform x t (p, q, r) with hxm
  have hids1 : sgIds g1 = sgIds g := (setTransform_ids t (p, q, r)).2 g
  have hnd1 : (sgIds g1).Nodup := by rw [hids1]; exact hnd
  have hcur1 : sgFind g1 t = some xm := by
    show listFind (listSetTransform g t (p, q, r)) t = _
    rw [(setTransform_find t (p, q, r)).2 g]
    have hx2 : listFind g t = some x := hx
    rw [hx2]
    rfl
  have hxmshape : xm = SceneObject.mk
      { x.data with position := p, rotation := q, scale := r } x.children := by
    rw [hxm]
    exact setTransform_root_shape x t (p, q, r) hndx hxr
  have hxmroot : xm.rootId = t := find_rootId.2 g1 t xm hcur1
  have hxmids : soIds xm = soIds x := (setTransform_ids t (p, q, r)).1 x
  -- the recorded command
  set c0 : CmdRecordSO := ⟨t, SceneObjProxy.capture g t, rh, encodeSO x rh, desc, .captured⟩
    with hc0
  have hrec : (CmdRecordSO.make desc t rh).recordSO g = .ok c0 := by
    unfold CmdRecordSO.recordSO CmdRecordSO.make
    simp only [hc0]
    simp [hx]
  -- first restore: revert on the mutated graph
  have hmerge1 : mergeD x xm c0.mRecordHierarchy = x := by
    rw [hc0]
    unfold mergeD
    cases rh with
    | false =>
      rw [hxmshape]
      exact SceneObject.eta x
    | true => rfl
  have hrev := revert_eq c0 g1 x xm (by rw [hc0]) (by rw [hc0]; exact hxr)
    (by rw [hc0]; exact hcur1) (by rw [hc0]; simp)
  have hG1find : sgFind (restoreResult c0 g1 x xm).2 t = some x := by
    unfold restoreResult
    rw [hmerge1]
    have hdnd : (sgIds (sgDestroy g1 c0.mSceneObject)).Nodup :=
      hnd1.sublist (destroy_ids_sublist.2 g1 c0.mSceneObject)
    have hznew : ¬ x.rootId ∈ sgIds (sgDestroy g1 c0.mSceneObject) := by
      rw [hxr, hc0]
      exact destroy_not_mem.2 g1 t
    have := attach_view_core (sgDestroy g1 c0.mSceneObject)
      c0.mSceneObjectProxy.ancestors c0.mSceneObjectProxy.ordinal x hdnd hznew
    rw [hxr] at this
    exact this
  have hG1nodup : (sgIds (restoreResult c0 g1 x xm).2).Nodup := by
    unfold restoreResult
    rw [hmerge1]
    have hdnd : (sgIds (sgDestroy g1 c0.mSceneObject)).Nodup :=
      hnd1.sublist (destroy_ids_sublist.2 g1 c0.mSceneObject)
    obtain ⟨hcn, hcd⟩ := destroy_cur_nodup_disj g1 t xm hnd1 hcur1
    rw [hxmids] at hcd
    have hc0so : c0.mSceneObject = t := by rw [hc0]
    rw [hc0so]
    exact attach_view_nodup (sgDestroy g1 t) c0.mSceneObjectProxy.ancestors
      c0.mSceneObjectProxy.ordinal x hdnd hndx hcd
  have htr1 : transformOf (restoreResult c0 g1 x xm).2 t =
      some (x.data.position, x.data.rotation, x.data.scale) := by
    simp [transformOf, hG1find]
  -- second restore: commit redoes forward
  set c1 : CmdRecordSO := { (restoreResult c0 g1 x xm).1 with state := .reverted } with hcv
  have hc1blob : c1.mSerializedObject = encodeSO xm c1.mRecordHierarchy := by
    rw [hcv]
    rfl
  have hc1so : c1.mSceneObject = t := by
    rw [hcv]
    show (mergeD x xm c0.mRecordHierarchy).rootId = t
    rw [hmerge1]
    exact hxr
  have hc1tok : xm.rootId = c1.mSceneObjectProxy.idToken := by
    rw [hcv]
    show xm.rootId = (SceneObjProxy.capture g1 c0.mSceneObject).idToken
    rw [hxmroot]
    rfl
  have hc1cur : sgFind (restoreResult c0 g1 x xm).2 c1.mSceneObject = some x := by
    rw [hc1so]
    exact hG1find
  have hmerge2 : mergeD xm x c1.mRecordHierarchy = xm := by
    have hrh : c1.mRecordHierarchy = rh := by rw [hcv]; rfl
    rw [hrh]
    unfold mergeD
    cases rh with
    | false =>
      rw [hxmshape]
      rfl
    | true => rfl
  have hcom := commit_redo_eq c1 (restoreResult c0 g1 x xm).2 xm x hc1blob hc1tok
    hc1cur (by rw [hcv])
  have hG2find : sgFind (restoreResult c1 (restoreResult c0 g1 x xm).2 xm x).2 t = some xm := by
    unfold restoreResult
    rw [hmerge2, hc1so]
    have hdnd : (sgIds (sgDestroy (restoreResult c0 g1 x xm).2 t)).Nodup :=
      hG1nodup.sublist (destroy_ids_sublist.2 _ t)
    obtain ⟨hcn, hcd⟩ := destroy_cur_nodup_disj (restoreResult c0 g1 x xm).2 t x hG1nodup hG1find
    have hznew : ¬ xm.rootId ∈ sgIds (sgDestroy (restoreResult c0 g1 x xm).2 t) := by
      rw [hxmroot]
      exact destroy_not_mem.2 _ t
    have := attach_view_core (sgDestroy (restoreResult c0 g1 x xm).2 t)
      c1.mSceneObjectProxy.ancestors c1.mSceneObjectProxy.ordinal xm hdnd hznew
    rw [hxmroot] at this
    exact this
  have htr2 : transformOf (restoreResult c1 (restoreResult c0 g1 x xm).2 xm x).2 t =
      some (p, q, r) := by
    rw [transformOf, hG2find]
    rw [hxmshape]
    rfl
  exact ⟨c0, c1, (restoreResult c0 g1 x xm).2,
    { (restoreResult c1 (restoreResult c0 g1 x xm).2 xm x).1 with state := .committed },
    (restoreResult c1 (restoreResult c0 g1 x xm).2 xm x).2,
    hrec, by rw [hrev, hcv], htr1, hcom, htr2⟩

theorem undo_redo_symmetry_witness :
    ∃ c c1 G1 c2 G2,
      (CmdRecordSO.make StringUtil.WBLANK 1 false).recordSO wGraph = .ok c ∧
      c.revert (sgSetTransform wGraph 1 (11, 21, 31)) = .ok (c1, G1) ∧
      transformOf G1 1 = some (10, 20, 30) ∧
      c1.commit G1 = .ok (c2, G2) ∧
      transformOf G2 1 = some (11, 21, 31) :=
  undo_redo_symmetry wGraph 1 (SceneObject.mk ⟨1, 10, 20, 30, [7]⟩ []) 11 21 31
    StringUtil.WBLANK false (by decide) rfl

theorem mergeD_rootId (y cur : SceneObject) (rh : Bool) :
    (mergeD y cur rh).rootId = y.rootId := by
  cases rh with
  | true => rfl
  | false => rfl

/-- C7: dangling-parent recovery - when the recorded parent of the
captured node is no longer live at revert time, the revert still
succeeds (the condition is never surfaced as a failure), the restored
node is live in the resulting graph (never silently dropped), and it is
reattached under the nearest surviving ancestor of the recorded proxy
chain, or at the graph root when no ancestor survives. -/
theorem dangling_parent_recovery (c : CmdRecordSO) (g : SceneGraph) (y cur : SceneObject)
    (pDead : Nat) (ps : List Nat)
    (hnd : (sgIds g).Nodup)
    (hne : c.state ≠ .empty)
    (hblob : c.mSerializedObject = encodeSO y c.mRecordHierarchy)
    (htok : y.rootId = c.mSceneObjectProxy.idToken)
    (hyroot : y.rootId = c.mSceneObject)
    (hcur : sgFind g c.mSceneObject = some cur)
    (hanc : c.mSceneObjectProxy.ancestors = pDead :: ps)
    (hdead : sgContains g pDead = false) :
    ∃ c2 G2, c.revert g = .ok (c2, G2) ∧
      sgContains G2 c.mSceneObject = true ∧
      (nearestSurviving ps (sgDestroy g c.mSceneObject) = none →
        c.mSceneObject ∈ topRootIds G2) ∧
      (∀ pa, nearestSurviving ps (sgDestroy g c.mSceneObject) = some pa →
        c.mSceneObject ∈ childRootIds G2 pa) := by
  have hrev := revert_eq c g y cur hblob htok hcur hne
  have hdnd : (sgIds (sgDestroy g c.mSceneObject)).Nodup :=
    hnd.sublist (destroy_ids_sublist.2 g c.mSceneObject)
  have hdead2 : sgContains (sgDestroy g c.mSceneObject) pDead = false := by
    simp only [sgContains] at hdead ⊢
    cases hf : listFind (listDestroy g c.mSceneObject) pDead with
    | none =>
      show (listFind (listDestroy g c.mSceneObject) pDead).isSome = false
      rw [hf]
      rfl
    | some w =>
      have h1 : pDead ∈ listIds (listDestroy g c.mSceneObject) := mem_of_find_some hf
      have h2 : pDead ∈ listIds g := (destroy_ids_sublist.2 g c.mSceneObject).subset h1
      have := (find_isSome_iff_mem.2 g pDead).mpr h2
      cases hg : listFind g pDead with
      | none => rw [hg] at this; simp at this
      | some w2 => rw [hg] at hdead; simp at hdead
  have hNSskip : nearestSurviving (pDead :: ps) (sgDestroy g c.mSceneObject) =
      nearestSurviving ps (sgDestroy g c.mSceneObject) := by
    simp [nearestSurviving, hdead2]
  have hznew : ¬ (mergeD y cur c.mRecordHierarchy).rootId ∈ sgIds (sgDestroy g c.mSceneObject) := by
    rw [mergeD_rootId, hyroot]
    exact destroy_not_mem.2 g c.mSceneObject
  have hfind : sgFind (restoreResult c g y cur).2 (mergeD y cur c.mRecordHierarchy).rootId =
      some (mergeD y cur c.mRecordHierarchy) := by
    unfold restoreResult
    exact attach_view_core (sgDestroy g c.mSceneObject) c.mSceneObjectProxy.ancestors
      c.mSceneObjectProxy.ordinal (mergeD y cur c.mRecordHierarchy) hdnd hznew
  rw [mergeD_rootId, hyroot] at hfind
  refine ⟨_, _, hrev, ?_, ?_, ?_⟩
  · simp [sgContains, sgFind] at hfind ⊢
    rw [show listFind (restoreResult c g y cur).2 c.mSceneObject =
      some (mergeD y cur c.mRecordHierarchy) from hfind]
    rfl
  · intro hns
    unfold restoreResult
    rw [hanc, hNSskip, hns]
    unfold sgAttach topRootIds
    have := insAt_root_mem c.mSceneObjectProxy.ordinal (mergeD y cur c.mRecordHierarchy)
      (sgDestroy g c.mSceneObject)
    rw [mergeD_rootId, hyroot] at this
    exact this
  · intro pa hns
    have hcont := nearestSurviving_some_contains ps (sgDestroy g c.mSceneObject) pa hns
    simp only [sgContains] at hcont
    cases hfp : listFind (sgDestroy g c.mSceneObject) pa with
    | none => rw [hfp] at hcont; simp at hcont
    | some w =>
      cases w with
      | mk d2 cs2 =>
        have hpf := attach_parent_find.2 (sgDestroy g c.mSceneObject) hdnd pa
          c.mSceneObjectProxy.ordinal (mergeD y cur c.mRecordHierarchy) d2 cs2 hfp
        unfold restoreResult
        rw [hanc, hNSskip, hns]
        unfold sgAttach childRootIds sgFind
        rw [hpf]
        simp only [SceneObject.children]
        have := insAt_root_mem c.mSceneObjectProxy.ordinal (mergeD y cur c.mRecordHierarchy) cs2
        rw [mergeD_rootId, hyroot] at this
        exact this

theorem dangling_parent_recovery_witness :
    ∃ c2 G2,
      CmdRecordSO.revert
        ⟨1, ⟨1, [99], 0⟩, true,
          encodeSO (SceneObject.mk ⟨1, 5, 6, 7, []⟩ []) true, StringUtil.WBLANK, .captured⟩
        wGraph = .ok (c2, G2) ∧
      sgContains G2 1 = true ∧
      (nearestSurviving [] (sgDestroy wGraph 1) = none → 1 ∈ topRootIds G2) ∧
      (∀ pa, nearestSurviving [] (sgDestroy wGraph 1) = some pa → 1 ∈ childRootIds G2 pa) :=
  dangling_parent_recovery
    ⟨1, ⟨1, [99], 0⟩, true,
      encodeSO (SceneObject.mk ⟨1, 5, 6, 7, []⟩ []) true, StringUtil.WBLANK, .captured⟩
    wGraph (SceneObject.mk ⟨1, 5, 6, 7, []⟩ []) (SceneObject.mk ⟨1, 10, 20, 30, [7]⟩ [])
    99 [] (by decide) (by decide) rfl rfl rfl rfl rfl (by decide)

theorem recordSO_make_eq (g : SceneGraph) (t : Nat) (x : SceneObject) (desc : String)
    (rh : Bool) (hx : sgFind g t = some x) :
    (CmdRecordSO.make desc t rh).recordSO g =
      .ok ⟨t, SceneObjProxy.capture g t, rh, encodeSO x rh, desc, .captured⟩ := by
  unfold CmdRecordSO.recordSO CmdRecordSO.make
  simp [hx]

/-- C8: hierarchy-flag scope - record the node twice, once per policy;
delete one of its descendants externally; then revert.  With
recordHierarchy = false only the node state itself is restored: the
restored subtree is exactly the post-deletion one and the deleted child
stays deleted.  With recordHierarchy = true the whole captured subtree
returns: the deleted child is live again. -/
theorem hierarchy_flag_scope (g : SceneGraph) (t chId : Nat) (x : SceneObject) (desc : String)
    (hnd : (sgIds g).Nodup) (hx : sgFind g t = some x)
    (hch : chId ∈ listIds x.children) :
    ∃ cF cT c1 G1 c2 G2,
      (CmdRecordSO.make desc t false).recordSO g = .ok cF ∧
      (CmdRecordSO.make desc t true).recordSO g = .ok cT ∧
      cF.revert (sgDestroy g chId) = .ok (c1, G1) ∧
      sgFind G1 t = some (soDestroy x chId) ∧
      sgContains G1 chId = false ∧
      cT.revert (sgDestroy g chId) = .ok (c2, G2) ∧
      sgFind G2 t = some x ∧
      sgContains G2 chId = true := by
  have hxr : x.rootId = t := find_rootId.2 g t x hx
  have hndx : (soIds x).Nodup := (find_ids_sublist.2 g t x hx).nodup hnd
  have hchx : chId ∈ soIds x := by
    cases x with
    | mk d cs =>
      simp only [SceneObject.children] at hch
      simp only [soIds]
      exact List.mem_cons_of_mem _ hch
  have hchnt : chId ≠ t := by
    intro he
    cases x with
    | mk d cs =>
      simp only [SceneObject.children] at hch
      simp only [SceneObject.rootId, SceneObject.data] at hxr
      simp only [soIds, List.nodup_cons] at hndx
      rw [← hxr] at he
      exact hndx.1 (he ▸ hch)
  have hxrch : x.rootId ≠ chId := by
    rw [hxr]
    exact fun he => hchnt he.symm
  set g1 : SceneGraph := sgDestroy g chId with hg1
  have hnd1 : (sgIds g1).Nodup := hnd.sublist (destroy_ids_sublist.2 g chId)
  have hcur : sgFind g1 t = some (soDestroy x chId) :=
    find_destroy_inner.2 g hnd t x chId hx hchx hchnt
  have hdroot : (soDestroy x chId).rootId = x.rootId := by
    cases x with
    | mk d cs => rfl
  have hdnd : (sgIds (sgDestroy g1 t)).Nodup :=
    hnd1.sublist (destroy_ids_sublist.2 g1 t)
  have hchNotDetached : ¬ chId ∈ sgIds (sgDestroy g1 t) := by
    intro hm
    have h1 : chId ∈ sgIds g1 := (destroy_ids_sublist.2 g1 t).subset hm
    rw [hg1] at h1
    exact destroy_not_mem.2 g chId h1
  -- shallow policy
  set cF : CmdRecordSO := ⟨t, SceneObjProxy.capture g t, false, encodeSO x false, desc,
    .captured⟩ with hcF
  have hrecF := recordSO_make_eq g t x desc false hx
  have hmF : mergeD x (soDestroy x chId) false = soDestroy x chId := by
    cases x with
    | mk d cs => rfl
  have hrevF := revert_eq cF g1 x (soDestroy x chId) (by rw [hcF]) (by rw [hcF]; exact hxr)
    (by rw [hcF]; exact hcur) (by rw [hcF]; simp)
  have hmFc : mergeD x (soDestroy x chId) cF.mRecordHierarchy = soDestroy x chId := by
    rw [hcF]
    exact hmF
  have hfindF : sgFind (restoreResult cF g1 x (soDestroy x chId)).2 t =
      some (soDestroy x chId) := by
    unfold restoreResult
    rw [hmFc]
    have hznew : ¬ (soDestroy x chId).rootId ∈ sgIds (sgDestroy g1 cF.mSceneObject) := by
      rw [hdroot, hxr, hcF]
      exact destroy_not_mem.2 g1 t
    have := attach_view_core (sgDestroy g1 cF.mSceneObject) cF.mSceneObjectProxy.ancestors
      cF.mSceneObjectProxy.ordinal (soDestroy x chId) (by rw [hcF]; exact hdnd) hznew
    rw [hdroot, hxr] at this
    rw [hcF] at this ⊢
    exact this
  have hpermF := sgAttach_ids_perm (sgDestroy g1 t) (nearestSurviving
      (SceneObjProxy.capture g t).ancestors (sgDestroy g1 t))
      (SceneObjProxy.capture g t).ordinal (soDestroy x chId) hdnd
      (fun pp hp => nearestSurviving_some_contains _ _ pp hp)
  have hcontF : sgContains (restoreResult cF g1 x (soDestroy x chId)).2 chId = false := by
    unfold restoreResult
    rw [hmFc, hcF]
    show (listFind _ chId).isSome = false
    rw [find_none_of_not_mem ?_]
    · rfl
    · intro hm
      have := hpermF.mem_iff.mp hm
      rw [List.mem_append] at this
      cases this with
      | inl h1 => exact destroy_not_mem.1 x chId hxrch h1
      | inr h2 => exact hchNotDetached h2
  -- deep policy
  set cT : CmdRecordSO := ⟨t, SceneObjProxy.capture g t, true, encodeSO x true, desc,
    .captured⟩ with hcT
  have hrecT := recordSO_make_eq g t x desc true hx
  have hmT : mergeD x (soDestroy x chId) cT.mRecordHierarchy = x := by
    rw [hcT]
    rfl
  have hrevT := revert_eq cT g1 x (soDestroy x chId) (by rw [hcT]) (by rw [hcT]; exact hxr)
    (by rw [hcT]; exact hcur) (by rw [hcT]; simp)
  have hfindT : sgFind (restoreResult cT g1 x (soDestroy x chId)).2 t = some x := by
    unfold restoreResult
    rw [hmT]
    have hznew : ¬ x.rootId ∈ sgIds (sgDestroy g1 cT.mSceneObject) := by
      rw [hxr, hcT]
      exact destroy_not_mem.2 g1 t
    have := attach_view_core (sgDestroy g1 cT.mSceneObject) cT.mSceneObjectProxy.ancestors
      cT.mSceneObjectProxy.ordinal x (by rw [hcT]; exact hdnd) hznew
    rw [hxr] at this
    rw [hcT] at this ⊢
    exact this
  have hpermT := sgAttach_ids_perm (sgDestroy g1 t) (nearestSurviving
      (SceneObjProxy.capture g t).ancestors (sgDestroy g1 t))
      (SceneObjProxy.capture g t).ordinal x hdnd
      (fun pp hp => nearestSurviving_some_contains _ _ pp hp)
  have hcontT : sgContains (restoreResult cT g1 x (soDestroy x chId)).2 chId = true := by
    unfold restoreResult
    rw [hmT, hcT]
    show (listFind _ chId).isSome = true
    apply (find_isSome_iff_mem.2 _ chId).mpr
    apply hpermT.mem_iff.mpr
    rw [List.mem_append]
    exact Or.inl hchx
  exact ⟨cF, cT, _, _, _, _,
    by rw [hrecF, hcF], by rw [hrecT, hcT], hrevF, hfindF, hcontF, hrevT, hfindT, hcontT⟩

/-- A two-node sample graph: node 1 with child node 2. -/
def wGraph2 : SceneGraph := [SceneObject.mk ⟨1, 10, 20, 30, [7]⟩ [SceneObject.mk ⟨2, 1, 2, 3, []⟩ []]]

theorem hierarchy_flag_scope_witness :
    ∃ cF cT c1 G1 c2 G2,
      (CmdRecordSO.make StringUtil.WBLANK 1 false).recordSO wGraph2 = .ok cF ∧
      (CmdRecordSO.make StringUtil.WBLANK 1 true).recordSO wGraph2 = .ok cT ∧
      cF.revert (sgDestroy wGraph2 2) = .ok (c1, G1) ∧
      sgFind G1 1 = some (soDestroy (SceneObject.mk ⟨1, 10, 20, 30, [7]⟩
        [SceneObject.mk ⟨2, 1, 2, 3, []⟩ []]) 2) ∧
      sgContains G1 2 = false ∧
      cT.revert (sgDestroy wGraph2 2) = .ok (c2, G2) ∧
      sgFind G2 1 = some (SceneObject.mk ⟨1, 10, 20, 30, [7]⟩
        [SceneObject.mk ⟨2, 1, 2, 3, []⟩ []]) ∧
      sgContains G2 2 = true :=
  hierarchy_flag_scope wGraph2 1 2
    (SceneObject.mk ⟨1, 10, 20, 30, [7]⟩ [SceneObject.mk ⟨2, 1, 2, 3, []⟩ []])
    StringUtil.WBLANK (by decide) rfl (by decide)

/-- One redo/undo alternation: commit (redo forward) then revert (undo). -/
def doCycle (p : CmdRecordSO × SceneGraph) : Except CmdError (CmdRecordSO × SceneGraph) :=
  match p.1.commit p.2 with
  | .ok q => q.1.revert q.2
  | .error e => .error e

/-- n redo/undo alternations in sequence. -/
def doCycles : Nat → CmdRecordSO × SceneGraph → Except CmdError (CmdRecordSO × SceneGraph)
  | 0, p => .ok p
  | n + 1, p =>
    match doCycle p with
    | .ok q => doCycles n q
    | .error e => .error e

theorem mergeD_stable_left (a b : SceneObject) (rh : Bool)
    (hch : rh = true ∨ b.children = a.children) :
    mergeD a b rh = a := by
  cases rh with
  | true => rfl
  | false =>
    cases hch with
    | inl h => exact absurd h (by simp)
    | inr h =>
      unfold mergeD
      rw [if_neg (by simp), h]
      exact SceneObject.eta a

theorem mergeD_stable_right (a b : SceneObject) (rh : Bool)
    (hch : rh = true ∨ b.children = a.children) :
    mergeD b a rh = b := by
  cases rh with
  | true => rfl
  | false =>
    cases hch with
    | inl h => exact absurd h (by simp)
    | inr h =>
      unfold mergeD
      rw [if_neg (by simp), ← h]
      exact SceneObject.eta b

theorem cycle_step (t : Nat) (a b : SceneObject) (rh : Bool)
    (haroot : a.rootId = t) (hbroot : b.rootId = t)
    (hids : soIds a = soIds b)
    (hch : rh = true ∨ b.children = a.children)
    (p : CmdRecordSO × SceneGraph)
    (h1 : p.1.mSceneObject = t) (h2 : p.1.mSceneObjectProxy.idToken = t)
    (h3 : p.1.mRecordHierarchy = rh) (h4 : p.1.mSerializedObject = encodeSO a rh)
    (h5 : p.1.state = .reverted) (h6 : sgFind p.2 t = some b)
    (h7 : (sgIds p.2).Nodup) :
    ∃ q, doCycle p = .ok q ∧
      q.1.mSceneObject = t ∧ q.1.mSceneObjectProxy.idToken = t ∧
      q.1.mRecordHierarchy = rh ∧ q.1.mSerializedObject = encodeSO a rh ∧
      q.1.state = .reverted ∧ sgFind q.2 t = some b ∧ (sgIds q.2).Nodup := by
  have hma : mergeD a b rh = a := mergeD_stable_left a b rh hch
  have hmb : mergeD b a rh = b := mergeD_stable_right a b rh hch
  have hmac : mergeD a b p.1.mRecordHierarchy = a := by rw [h3]; exact hma
  -- the commit redoes forward, restoring a
  have hcom := commit_redo_eq p.1 p.2 a b (by rw [h3]; exact h4)
    (by rw [h2]; exact haroot) (by rw [h1]; exact h6) h5
  have hdnd : (sgIds (sgDestroy p.2 t)).Nodup := h7.sublist (destroy_ids_sublist.2 p.2 t)
  obtain ⟨hbn, hbdisj⟩ := destroy_cur_nodup_disj p.2 t b h7 h6
  have hGcFind : sgFind (restoreResult p.1 p.2 a b).2 t = some a := by
    unfold restoreResult
    rw [hmac, h1]
    have hznew : ¬ a.rootId ∈ sgIds (sgDestroy p.2 t) := by
      rw [haroot]
      exact destroy_not_mem.2 p.2 t
    have := attach_view_core (sgDestroy p.2 t) p.1.mSceneObjectProxy.ancestors
      p.1.mSceneObjectProxy.ordinal a hdnd hznew
    rw [haroot] at this
    exact this
  have hGcNodup : (sgIds (restoreResult p.1 p.2 a b).2).Nodup := by
    unfold restoreResult
    rw [hmac, h1]
    refine attach_view_nodup (sgDestroy p.2 t) p.1.mSceneObjectProxy.ancestors
      p.1.mSceneObjectProxy.ordinal a hdnd ?_ ?_
    · rw [hids]
      exact hbn
    · intro j hj
      rw [hids] at hj
      exact hbdisj j hj
  -- the revert then undoes again, restoring b
  set cc : CmdRecordSO := { (restoreResult p.1 p.2 a b).1 with state := .committed } with hcc
  have hccso : cc.mSceneObject = t := by
    rw [hcc]
    show (mergeD a b p.1.mRecordHierarchy).rootId = t
    rw [hmac]
    exact haroot
  have hcctok : cc.mSceneObjectProxy.idToken = t := by
    rw [hcc]
    show (SceneObjProxy.capture p.2 p.1.mSceneObject).idToken = t
    rw [h1]
    rfl
  have hccrh : cc.mRecordHierarchy = rh := by
    rw [hcc]
    exact h3
  have hccblob : cc.mSerializedObject = encodeSO b cc.mRecordHierarchy := by
    rw [hcc]
    rfl
  have hrev := revert_eq cc (restoreResult p.1 p.2 a b).2 b a hccblob
    (by rw [hcctok]; exact hbroot) (by rw [hccso]; exact hGcFind) (by rw [hcc]; simp)
  have hmbc : mergeD b a cc.mRecordHierarchy = b := by rw [hccrh]; exact hmb
  have hdnd2 : (sgIds (sgDestroy (restoreResult p.1 p.2 a b).2 t)).Nodup :=
    hGcNodup.sublist (destroy_ids_sublist.2 _ t)
  obtain ⟨han, hadisj⟩ := destroy_cur_nodup_disj (restoreResult p.1 p.2 a b).2 t a
    hGcNodup hGcFind
  have hGrFind : sgFind (restoreResult cc (restoreResult p.1 p.2 a b).2 b a).2 t = some b := by
    unfold restoreResult
    rw [hmbc, hccso]
    have hznew : ¬ b.rootId ∈ sgIds (sgDestroy (restoreResult p.1 p.2 a b).2 t) := by
      rw [hbroot]
      exact destroy_not_mem.2 _ t
    have := attach_view_core (sgDestroy (restoreResult p.1 p.2 a b).2 t)
      cc.mSceneObjectProxy.ancestors cc.mSceneObjectProxy.ordinal b hdnd2 hznew
    rw [hbroot] at this
    exact this
  have hGrNodup : (sgIds (restoreResult cc (restoreResult p.1 p.2 a b).2 b a).2).Nodup := by
    unfold restoreResult
    rw [hmbc, hccso]
    refine attach_view_nodup (sgDestroy (restoreResult p.1 p.2 a b).2 t)
      cc.mSceneObjectProxy.ancestors cc.mSceneObjectProxy.ordinal b hdnd2 ?_ ?_
    · rw [← hids]
      exact han
    · intro j hj
      rw [← hids] at hj
      exact hadisj j hj
  refine ⟨({ (restoreResult cc (restoreResult p.1 p.2 a b).2 b a).1 with state := .reverted },
    (restoreResult cc (restoreResult p.1 p.2 a b).2 b a).2), ?_, ?_, ?_, ?_, ?_, rfl, hGrFind,
    hGrNodup⟩
  · show (match p.1.commit p.2 with
      | .ok q => q.1.revert q.2
      | .error e => .error e) = _
    rw [hcom]
    show cc.revert (restoreResult p.1 p.2 a b).2 = _
    rw [hrev]
  · show (mergeD b a cc.mRecordHierarchy).rootId = t
    rw [hmbc]
    exact hbroot
  · show (SceneObjProxy.capture (restoreResult p.1 p.2 a b).2 cc.mSceneObject).idToken = t
    rw [hccso]
    rfl
  · show cc.mRecordHierarchy = rh
    exact hccrh
  · show encodeSO a cc.mRecordHierarchy = encodeSO a rh
    rw [hccrh]

theorem cycles_stable (t : Nat) (a b : SceneObject) (rh : Bool)
    (haroot : a.rootId = t) (hbroot : b.rootId = t)
    (hids : soIds a = soIds b)
    (hch : rh = true ∨ b.children = a.children) :
    ∀ (n : Nat) (p : CmdRecordSO × SceneGraph),
      p.1.mSceneObject = t → p.1.mSceneObjectProxy.idToken = t →
      p.1.mRecordHierarchy = rh → p.1.mSerializedObject = encodeSO a rh →
      p.1.state = .reverted → sgFind p.2 t = some b → (sgIds p.2).Nodup →
      ∃ q, doCycles n p = .ok q ∧ sgFind q.2 t = some b := by
  intro n
  induction n with
  | zero =>
    intro p _ _ _ _ _ h6 _
    exact ⟨p, rfl, h6⟩
  | succ n ih =>
    intro p h1 h2 h3 h4 h5 h6 h7
    obtain ⟨q, hq, hq1, hq2, hq3, hq4, hq5, hq6, hq7⟩ :=
      cycle_step t a b rh haroot hbroot hids hch p h1 h2 h3 h4 h5 h6 h7
    obtain ⟨q2, hq2eq, hfind⟩ := ih q hq1 hq2 hq3 hq4 hq5 hq6 hq7
    refine ⟨q2, ?_, hfind⟩
    show (match doCycle p with
      | .ok q => doCycles n q
      | .error e => .error e) = .ok q2
    rw [hq]
    exact hq2eq

/-- C6: multi-cycle stability - record a node, mutate its transform
externally, revert once, then alternate commit (redo) and revert (undo)
any number of times, in particular one hundred: after every cycle the
restored target subtree is exactly the one produced by the first
revert; repeated undo/redo is lossless, with no drift. -/
theorem multi_cycle_stability (g : SceneGraph) (t : Nat) (x : SceneObject)
    (p q r : Int) (desc : String) (rh : Bool)
    (hnd : (sgIds g).Nodup) (hx : sgFind g t = some x) :
    ∃ c c1 G1, (CmdRecordSO.make desc t rh).recordSO g = .ok c ∧
      c.revert (sgSetTransform g t (p, q, r)) = .ok (c1, G1) ∧
      ∀ n, ∃ cn Gn, doCycles n (c1, G1) = .ok (cn, Gn) ∧
        sgFind Gn t = sgFind G1 t := by
  have hxr : x.rootId = t := find_rootId.2 g t x hx
  have hndx : (soIds x).Nodup := (find_ids_sublist.2 g t x hx).nodup hnd
  set g1 : SceneGraph := sgSetTransform g t (p, q, r) with hg1
  set xm : SceneObject := soSetTransform x t (p, q, r) with hxm
  have hids1 : sgIds g1 = sgIds g := (setTransform_ids t (p, q, r)).2 g
  have hnd1 : (sgIds g1).Nodup := by rw [hids1]; exact hnd
  have hcur1 : sgFind g1 t = some xm := by
    show listFind (listSetTransform g t (p, q, r)) t = _
    rw [(setTransform_find t (p, q, r)).2 g]
    have hx2 : listFind g t = some x := hx
    rw [hx2]
    rfl
  have hxmshape : xm = SceneObject.mk
      { x.data with position := p, rotation := q, scale := r } x.children := by
    rw [hxm]
    exact setTransform_root_shape x t (p, q, r) hndx hxr
  have hxmroot : xm.rootId = t := find_rootId.2 g1 t xm hcur1
  have hxmids : soIds xm = soIds x := (setTransform_ids t (p, q, r)).1 x
  have hxmch : xm.children = x.children := by
    rw [hxmshape]
    rfl
  set c0 : CmdRecordSO := ⟨t, SceneObjProxy.capture g t, rh, encodeSO x rh, desc, .captured⟩
    with hc0
  have hrec := recordSO_make_eq g t x desc rh hx
  have hmerge1 : mergeD x xm c0.mRecordHierarchy = x := by
    rw [hc0]
    show mergeD x xm rh = x
    exact mergeD_stable_right xm x rh (by
      cases rh with
      | true => exact Or.inl rfl
      | false => exact Or.inr hxmch.symm)
  have hrev := revert_eq c0 g1 x xm (by rw [hc0]) (by rw [hc0]; exact hxr)
    (by rw [hc0]; exact hcur1) (by rw [hc0]; simp)
  have hdnd : (sgIds (sgDestroy g1 t)).Nodup := hnd1.sublist (destroy_ids_sublist.2 g1 t)
  obtain ⟨hxmn, hxmdisj⟩ := destroy_cur_nodup_disj g1 t xm hnd1 hcur1
  have hG1find : sgFind (restoreResult c0 g1 x xm).2 t = some x := by
    unfold restoreResult
    rw [hmerge1]
    have hznew : ¬ x.rootId ∈ sgIds (sgDestroy g1 c0.mSceneObject) := by
      rw [hxr, hc0]
      exact destroy_not_mem.2 g1 t
    have := attach_view_core (sgDestroy g1 c0.mSceneObject)
      c0.mSceneObjectProxy.ancestors c0.mSceneObjectProxy.ordinal x
      (by rw [hc0]; exact hdnd) hznew
    rw [hxr] at this
    rw [hc0] at this ⊢
    exact this
  have hG1nodup : (sgIds (restoreResult c0 g1 x xm).2).Nodup := by
    unfold restoreResult
    rw [hmerge1, hc0]
    show (sgIds (sgAttach (sgDestroy g1 t) _ _ x)).Nodup
    refine attach_view_nodup (sgDestroy g1 t) _ _ x hdnd hndx ?_
    intro j hj
    rw [← hxmids] at hj
    exact hxmdisj j hj
  refine ⟨c0, { (restoreResult c0 g1 x xm).1 with state := .reverted },
    (restoreResult c0 g1 x xm).2, by rw [hrec, hc0], hrev, ?_⟩
  intro n
  have hc1so : ({ (restoreResult c0 g1 x xm).1 with state := CmdState.reverted } :
      CmdRecordSO).mSceneObject = t := by
    show (mergeD x xm c0.mRecordHierarchy).rootId = t
    rw [hmerge1]
    exact hxr
  have hc1tok : ({ (restoreResult c0 g1 x xm).1 with state := CmdState.reverted } :
      CmdRecordSO).mSceneObjectProxy.idToken = t := by
    show (SceneObjProxy.capture g1 c0.mSceneObject).idToken = t
    rw [hc0]
    rfl
  have hc1rh : ({ (restoreResult c0 g1 x xm).1 with state := CmdState.reverted } :
      CmdRecordSO).mRecordHierarchy = rh := by
    rw [hc0]
    rfl
  have hc1blob : ({ (restoreResult c0 g1 x xm).1 with state := CmdState.reverted } :
      CmdRecordSO).mSerializedObject = encodeSO xm rh := by
    show encodeSO xm c0.mRecordHierarchy = encodeSO xm rh
    rw [hc0]
  obtain ⟨qn, hqn, hqfind⟩ := cycles_stable t xm x rh hxmroot hxr hxmids
    (by
      cases rh with
      | true => exact Or.inl rfl
      | false => exact Or.inr hxmch.symm)
    n ({ (restoreResult c0 g1 x xm).1 with state := CmdState.reverted },
      (restoreResult c0 g1 x xm).2)
    hc1so hc1tok hc1rh hc1blob rfl hG1find hG1nodup
  exact ⟨qn.1, qn.2, hqn, by rw [hqfind, hG1find]⟩

theorem multi_cycle_stability_witness :
    ∃ c c1 G1, (CmdRecordSO.make StringUtil.WBLANK 1 false).recordSO wGraph = .ok c ∧
      c.revert (sgSetTransform wGraph 1 (11, 21, 31)) = .ok (c1, G1) ∧
      ∃ cn Gn, doCycles 100 (c1, G1) = .ok (cn, Gn) ∧ sgFind Gn 1 = sgFind G1 1 := by
  obtain ⟨c, c1, G1, h1, h2, h3⟩ := multi_cycle_stability wGraph 1
    (SceneObject.mk ⟨1, 10, 20, 30, [7]⟩ []) 11 21 31 StringUtil.WBLANK false
    (by decide) rfl
  exact ⟨c, c1, G1, h1, h2, h3 100⟩
